import Mathlib

/-!
Shallow embedding of the context-reference-count tool cache
(`context_ref/core/models.py`, `core/utils.py`, `core/storage/memory.py`,
`core/cache.py`, `interceptor/wrapper.py`).

Python floats and timestamps are modelled as real numbers (timestamps in
seconds, as produced by `datetime` subtraction), Python ints as integers.
The in-memory storage backend is a Python dict preserving insertion order;
it is modelled as an association list with unique keys.  The embedding
provider and the vector index are external collaborators (spec section 1):
the embedding function and the content hash are parameters, and the vector
index's nearest-neighbour answer is passed to `search` as an oracle input
(a list of ids with distances), while the index's own contents (add /
delete / clear) are modelled explicitly.  Fallible collaborator calls
(`storage.set`, vector delete during rollback) take explicit failure flags.
-/

set_option maxHeartbeats 1000000

noncomputable section

namespace ContextRef

/-- Model of `models.CacheEntry` (`core/models.py`): one cached tool-call
result.  The opaque `output` payload and the structured `input_args` values
are modelled as strings. -/
structure CacheEntry where
  id : String
  uuid : String
  tool_name : String
  input_text : String
  input_args : List (String × String)
  output : String
  embedding : Option (List ℝ) := none
  reuse_count : ℤ := 0
  provide_context_count : ℤ := 0
  created_at : ℝ
  last_accessed_at : ℝ
  success : Bool := true

/-- Model of `CacheEntry.total_reference_count`. -/
def CacheEntry.total_reference_count (e : CacheEntry) : ℤ :=
  e.reuse_count + e.provide_context_count

/-- Model of `CacheEntry.increment_reuse` (`core/models.py` lines 52-55):
bump the reuse counter and refresh the access time. -/
def CacheEntry.incrementReuse (e : CacheEntry) (now : ℝ) : CacheEntry :=
  { e with reuse_count := e.reuse_count + 1, last_accessed_at := now }

/-- Model of `CacheEntry.increment_context` (`core/models.py` lines 57-60). -/
def CacheEntry.incrementContext (e : CacheEntry) (now : ℝ) : CacheEntry :=
  { e with provide_context_count := e.provide_context_count + 1,
           last_accessed_at := now }

/-- Model of `models.CacheHit`: an entry paired with the similarity and
weighted score of one search call. -/
structure CacheHit where
  entry : CacheEntry
  similarity : ℝ
  weighted_score : ℝ

/-- Model of the `CacheHit.should_reuse` property (`core/models.py` lines
127-130): `return self.similarity >= 0.95` with the hardcoded constant. -/
def CacheHit.should_reuse (h : CacheHit) : Prop :=
  0.95 ≤ h.similarity

/-- Model of `config.CacheConfig.eviction_policy`, a literal of
`lru`, `lfu`, `fifo`, `score` (`core/config.py` lines 65-67). -/
inductive EvictionPolicy where
  | score
  | lru
  | lfu
  | fifo
  deriving DecidableEq, Repr

/-- Model of `config.CacheConfig` (`core/config.py`), restricted to the
fields the decision-and-scoring engine consumes. -/
structure CacheConfig where
  similarity_threshold : ℝ := 0.75
  reuse_threshold : ℝ := 0.95
  max_cache_size : ℕ := 1000
  reuse_context_factor : ℝ := 0.6
  time_decay_lambda : ℝ := 0.01
  top_k : ℕ := 5
  eviction_policy : EvictionPolicy := EvictionPolicy.score

/-- Model of the pydantic field constraints plus the
`validate_thresholds` model validator of `CacheConfig`: every bound the
construction of a config enforces. -/
def CacheConfig.Valid (c : CacheConfig) : Prop :=
  0 ≤ c.similarity_threshold ∧ c.similarity_threshold ≤ 1 ∧
  0 ≤ c.reuse_threshold ∧ c.reuse_threshold ≤ 1 ∧
  0 < c.max_cache_size ∧
  0 ≤ c.reuse_context_factor ∧ c.reuse_context_factor ≤ 1 ∧
  0 ≤ c.time_decay_lambda ∧
  0 < c.top_k ∧
  c.similarity_threshold ≤ c.reuse_threshold

/-- Model of `utils.generate_cache_id` (`core/utils.py` lines 17-34):
the SHA-256 hex digest truncated to 16 characters of
`tool_name ++ ":" ++ input_text`.  The hash itself is an external
primitive (`hashlib`), abstracted as the function argument `sha`. -/
def generate_cache_id (sha : String → String) (tool_name input_text : String) : String :=
  sha (tool_name ++ ":" ++ input_text)

/-- Model of `utils.serialize_args` (`core/utils.py` lines 37-52):
canonical JSON-style rendering with keys sorted ascending. -/
def serialize_args (args : List (String × String)) : String :=
  let sorted := args.mergeSort (fun a b => decide (a.1 ≤ b.1))
  "\x7b" ++ String.intercalate ", "
      (sorted.map (fun p => "\"" ++ p.1 ++ "\": " ++ p.2)) ++ "\x7d"

/-- Model of `utils.compute_weighted_score` (`core/utils.py` lines 55-119).
The evaluation instant `datetime.now()` is the explicit parameter `now`;
timestamps are in seconds, so the elapsed hours are `(now - last) / 3600`.
Note the code applies no clamping to the elapsed time. -/
def compute_weighted_score (similarity : ℝ) (reuse_count provide_context_count : ℤ)
    (last_accessed : ℝ) (reuse_context_factor time_decay_lambda : ℝ)
    (now : ℝ) : ℝ :=
  similarity +
    min (Real.log ((reuse_context_factor * (reuse_count : ℝ)
          + (1 - reuse_context_factor) * (provide_context_count : ℝ)) + 1)
        / Real.log 100)
      1
    * Real.exp (-time_decay_lambda * ((now - last_accessed) / 3600))

/-! ## In-memory storage backend (`core/storage/memory.py`)

`MemoryStorageBackend` keeps a dict `_data` of entries and a dict `_scores`
of ranking scores; both are written together by `set` and share their key
set.  A Python dict has unique keys and preserves insertion order, so the
pair of dicts is modelled as one insertion-ordered association list. -/

/-- One key of the memory backend: the stored entry dict together with its
score from the parallel `_scores` dict. -/
structure StoredItem where
  key : String
  entry : CacheEntry
  score : ℝ

/-- The whole backend state: `_data` and `_scores`, in insertion order. -/
abbrev Storage := List StoredItem

/-- Model of `MemoryStorageBackend.get`. -/
def storageGet (st : Storage) (key : String) : Option CacheEntry :=
  (st.find? (fun i => i.key == key)).map (fun i => i.entry)

/-- Model of `MemoryStorageBackend.exists`. -/
def storageExists (st : Storage) (key : String) : Bool :=
  st.any (fun i => i.key == key)

/-- Model of `MemoryStorageBackend.set`: writing an existing key updates it
in place (a dict keeps the key position), a new key is appended. -/
def storageSet (st : Storage) (key : String) (e : CacheEntry) (score : ℝ) : Storage :=
  if storageExists st key then
    st.map (fun i => if i.key == key then ⟨key, e, score⟩ else i)
  else
    st ++ [⟨key, e, score⟩]

/-- Model of `MemoryStorageBackend.delete`: pops the key from `_data` and
`_scores`, reporting whether it was present. -/
def storageDelete (st : Storage) (key : String) : Bool × Storage :=
  (storageExists st key, st.filter (fun i => !(i.key == key)))

/-- Model of `MemoryStorageBackend.keys` (iteration order of the dict). -/
def storageKeys (st : Storage) : List String :=
  st.map (fun i => i.key)

/-- Model of `MemoryStorageBackend.size`. -/
def storageSize (st : Storage) : ℕ :=
  st.length

/-- Model of `MemoryStorageBackend.update_score`: refuses a missing key,
otherwise rewrites only the `_scores` slot. -/
def storageUpdateScore (st : Storage) (key : String) (score : ℝ) : Bool × Storage :=
  if storageExists st key then
    (true, st.map (fun i => if i.key == key then ⟨i.key, i.entry, score⟩ else i))
  else
    (false, st)

/-- Model of `MemoryStorageBackend.update_access_time`: refreshes only
`last_accessed_at` of an existing entry. -/
def storageUpdateAccessTime (st : Storage) (key : String) (now : ℝ) : Bool × Storage :=
  if storageExists st key then
    (true, st.map (fun i =>
      if i.key == key then
        ⟨i.key, { i.entry with last_accessed_at := now }, i.score⟩
      else i))
  else
    (false, st)

/-- Model of `MemoryStorageBackend.increment_reuse` (`memory.py` lines
76-83): bump `reuse_count` and refresh `last_accessed_at`. -/
def storageIncrementReuse (st : Storage) (key : String) (now : ℝ) : Bool × Storage :=
  if storageExists st key then
    (true, st.map (fun i =>
      if i.key == key then
        ⟨i.key, { i.entry with reuse_count := i.entry.reuse_count + 1,
                               last_accessed_at := now }, i.score⟩
      else i))
  else
    (false, st)

/-- Model of `MemoryStorageBackend.increment_context` (`memory.py` lines
85-92): bump `provide_context_count` and refresh `last_accessed_at`. -/
def storageIncrementContext (st : Storage) (key : String) (now : ℝ) : Bool × Storage :=
  if storageExists st key then
    (true, st.map (fun i =>
      if i.key == key then
        ⟨i.key, { i.entry with
                    provide_context_count := i.entry.provide_context_count + 1,
                    last_accessed_at := now }, i.score⟩
      else i))
  else
    (false, st)

/-- The entry transformation performed by `decrement_reference`: take one
off `reuse_count` when it is positive, otherwise off
`provide_context_count` when that is positive, otherwise leave both. -/
def decrementEntry (e : CacheEntry) : CacheEntry :=
  if 0 < e.reuse_count then
    { e with reuse_count := e.reuse_count - 1 }
  else if 0 < e.provide_context_count then
    { e with provide_context_count := e.provide_context_count - 1 }
  else e

/-- Model of `MemoryStorageBackend.decrement_reference` (`memory.py` lines
94-105).  The access time is not refreshed, and the call reports success
even when both counters are already zero. -/
def storageDecrementReference (st : Storage) (key : String) : Bool × Storage :=
  if storageExists st key then
    (true, st.map (fun i =>
      if i.key == key then ⟨i.key, decrementEntry i.entry, i.score⟩ else i))
  else
    (false, st)

/-- Model of `MemoryStorageBackend.get_bottom_by_score` (`memory.py` lines
107-111): keys of the `n` lowest-scored items, matching the stable
ascending sort of `sorted`. -/
def getBottomByScore (st : Storage) (n : ℕ) : List String :=
  (((st.mergeSort (fun a b => decide (a.score ≤ b.score))).map
      (fun i => i.key)).take n)

/-- Model of `MemoryStorageBackend.get_oldest_by_access` (LRU selector). -/
def getOldestByAccess (st : Storage) (n : ℕ) : List String :=
  (((st.mergeSort (fun a b =>
      decide (a.entry.last_accessed_at ≤ b.entry.last_accessed_at))).map
      (fun i => i.key)).take n)

/-- Model of `MemoryStorageBackend.get_least_used` (LFU selector): lowest
total reference count first. -/
def getLeastUsed (st : Storage) (n : ℕ) : List String :=
  (((st.mergeSort (fun a b =>
      decide (a.entry.reuse_count + a.entry.provide_context_count ≤
              b.entry.reuse_count + b.entry.provide_context_count))).map
      (fun i => i.key)).take n)

/-- Model of `MemoryStorageBackend.get_oldest_by_creation` (FIFO selector). -/
def getOldestByCreation (st : Storage) (n : ℕ) : List String :=
  (((st.mergeSort (fun a b =>
      decide (a.entry.created_at ≤ b.entry.created_at))).map
      (fun i => i.key)).take n)

/-! ## Vector index contents

The nearest-neighbour computation is external; only the record set the
cache writes and deletes is modelled. -/

/-- One record held by the vector index: id, embedding, document and the
`tool_name` metadata written by `save`. -/
structure VectorRecord where
  id : String
  embedding : List ℝ
  document : String
  tool_name : String

/-- The vector index contents. -/
abbrev VectorIndex := List VectorRecord

/-- Model of the vector store `add` used by `save`. -/
def vectorAdd (v : VectorIndex) (r : VectorRecord) : VectorIndex :=
  v ++ [r]

/-- Model of the vector store `delete(ids=[id])`. -/
def vectorDelete (v : VectorIndex) (id : String) : VectorIndex :=
  v.filter (fun r => !(r.id == id))

/-- Whether an id is findable in the vector index. -/
def vectorHas (v : VectorIndex) (id : String) : Bool :=
  v.any (fun r => r.id == id)

/-! ## ToolCache (`core/cache.py`) -/

/-- One row of the vector index's search answer: a candidate entry id with
its distance.  The answer list is an input of `search` because the
nearest-neighbour computation belongs to the external vector index. -/
structure RawResult where
  id : String
  distance : ℝ

/-- Model of `ToolCache._compute_entry_score`: the weighted score of an
entry at a given similarity (1.0 when an entry is scored against itself). -/
def computeEntryScore (cfg : CacheConfig) (e : CacheEntry) (similarity : ℝ)
    (now : ℝ) : ℝ :=
  compute_weighted_score similarity e.reuse_count e.provide_context_count
    e.last_accessed_at cfg.reuse_context_factor cfg.time_decay_lambda now

/-- The candidate loop of `ToolCache.search` (`cache.py` lines 168-198):
fetch each candidate from storage, prune a stale vector-index record when
the entry is missing, drop candidates below the similarity threshold, and
score the rest against the single `now` snapshot.  Storage is only read. -/
def searchCollect (cfg : CacheConfig) (st : Storage) (now : ℝ) :
    List RawResult → VectorIndex → List CacheHit × VectorIndex
  | [], v => ([], v)
  | r :: rest, v =>
    match storageGet st r.id with
    | none =>
      let v1 := if storageExists st r.id then v else vectorDelete v r.id
      searchCollect cfg st now rest v1
    | some e =>
      let similarity := 1 - r.distance
      if similarity < cfg.similarity_threshold then
        searchCollect cfg st now rest v
      else
        let hit : CacheHit :=
          ⟨e, similarity,
            compute_weighted_score similarity e.reuse_count
              e.provide_context_count e.last_accessed_at
              cfg.reuse_context_factor cfg.time_decay_lambda now⟩
        let r := searchCollect cfg st now rest v
        (hit :: r.1, r.2)

/-- Model of `ToolCache.search` (`cache.py` lines 145-201).  The raw
vector-index answer is the oracle input `raw`; an empty answer returns an
empty hit list.  Hits are sorted by weighted score descending with the
stable sort of `list.sort(reverse=True)`.  The storage component of the
result is the unchanged input state: the method only reads entries. -/
def cacheSearch (cfg : CacheConfig) (st : Storage) (v : VectorIndex)
    (now : ℝ) (raw : List RawResult) :
    List CacheHit × Storage × VectorIndex :=
  match raw with
  | [] => ([], st, v)
  | _ =>
    let r := searchCollect cfg st now raw v
    (r.1.mergeSort (fun a b => decide (b.weighted_score ≤ a.weighted_score)),
      st, r.2)

/-- Model of `ToolCache._touch_entry` (`cache.py` lines 203-215): refresh
the access time, then recompute and persist the score at similarity 1. -/
def touchEntry (cfg : CacheConfig) (st : Storage) (id : String) (now : ℝ) :
    Storage :=
  let r := storageUpdateAccessTime st id now
  if r.1 then
    match storageGet r.2 id with
    | none => r.2
    | some e => (storageUpdateScore r.2 id (computeEntryScore cfg e 1 now)).2
  else st

/-- Model of `ToolCache.get_best_match` (`cache.py` lines 217-227). -/
def getBestMatch (cfg : CacheConfig) (st : Storage) (v : VectorIndex)
    (now : ℝ) (raw : List RawResult) :
    Option CacheHit × Storage × VectorIndex :=
  let r := cacheSearch cfg st v now raw
  match r.1 with
  | [] => (none, st, r.2.2)
  | h :: _ =>
    if cfg.similarity_threshold ≤ h.similarity then
      (some h, touchEntry cfg st h.entry.id now, r.2.2)
    else
      (none, st, r.2.2)

/-- Model of `ToolCache._evict_entry` (`cache.py` lines 353-356): remove
one id from storage and from the vector index, skipping an absent id. -/
def evictEntry (sv : Storage × VectorIndex) (id : String) :
    Storage × VectorIndex :=
  if storageExists sv.1 id then
    ((storageDelete sv.1 id).2, vectorDelete sv.2 id)
  else sv

/-- The eviction selector dispatch of `ToolCache._maybe_evict`: unknown
policy names fall back to FIFO (the final `else` branch). -/
def selectForEviction (cfg : CacheConfig) (st : Storage) (n : ℕ) :
    List String :=
  match cfg.eviction_policy with
  | EvictionPolicy.score => getBottomByScore st n
  | EvictionPolicy.lru => getOldestByAccess st n
  | EvictionPolicy.lfu => getLeastUsed st n
  | EvictionPolicy.fifo => getOldestByCreation st n

/-- Model of `ToolCache._maybe_evict` (`cache.py` lines 334-351): when the
entry count exceeds `max_cache_size`, select `size - max_cache_size` ids
with the configured policy and evict each. -/
def maybeEvict (cfg : CacheConfig) (st : Storage) (v : VectorIndex) :
    Storage × VectorIndex :=
  if storageSize st ≤ cfg.max_cache_size then (st, v)
  else
    let n := storageSize st - cfg.max_cache_size
    (selectForEviction cfg st n).foldl evictEntry (st, v)

/-- Outcome of one `save` call: the propagated error (if any), the entry
returned on success, and the resulting backing-store states. -/
structure SaveResult where
  error : Option String
  entry : Option CacheEntry
  storage : Storage
  vindex : VectorIndex

/-- Model of `ToolCache.save` (`cache.py` lines 229-279).  `sha` and
`embed` are the external hash and embedding collaborators; `uuid` is the
fresh random instance identifier; `setFails` makes the durable-store write
raise with message `errMsg`, and `deleteFails` makes the best-effort
rollback delete of the vector record raise (that failure is swallowed by
the bare `except`).  An existing id is updated in place and returns before
any eviction; a new id is added to the vector index first, then persisted,
rolling the vector write back when persisting fails, and finally runs
`_maybe_evict`. -/
def cacheSave (sha : String → String) (embed : String → List ℝ)
    (cfg : CacheConfig) (st : Storage) (v : VectorIndex)
    (tool_name : String) (args : List (String × String))
    (output : String) (success : Bool) (now : ℝ) (uuid : String)
    (setFails deleteFails : Bool) (errMsg : String) : SaveResult :=
  let input_text := serialize_args args
  let entry_id := generate_cache_id sha tool_name input_text
  match storageGet st entry_id with
  | some e0 =>
    let e := { e0 with output := output, success := success,
                       last_accessed_at := now }
    if setFails then
      ⟨some errMsg, none, st, v⟩
    else
      ⟨none, some e,
        storageSet st entry_id e (computeEntryScore cfg e 1 now), v⟩
  | none =>
    let emb := embed input_text
    let e : CacheEntry :=
      { id := entry_id, uuid := uuid, tool_name := tool_name,
        input_text := input_text, input_args := args, output := output,
        embedding := some emb, reuse_count := 0, provide_context_count := 0,
        created_at := now, last_accessed_at := now, success := success }
    let sc := computeEntryScore cfg e 1 now
    let v1 := vectorAdd v ⟨entry_id, emb, input_text, tool_name⟩
    if setFails then
      let v2 := if deleteFails then v1 else vectorDelete v1 entry_id
      ⟨some errMsg, none, st, v2⟩
    else
      let st1 := storageSet st entry_id e sc
      let sv := maybeEvict cfg st1 v1
      ⟨none, some e, sv.1, sv.2⟩

/-- Model of `ToolCache.increment_reuse` (`cache.py` lines 281-299): bump
the counter in storage, then recompute and persist the score at
similarity 1. -/
def cacheIncrementReuse (cfg : CacheConfig) (st : Storage) (id : String)
    (now : ℝ) : Bool × Storage :=
  let r := storageIncrementReuse st id now
  if r.1 then
    match storageGet r.2 id with
    | some e =>
      (true, (storageUpdateScore r.2 id (computeEntryScore cfg e 1 now)).2)
    | none => (true, r.2)
  else (false, r.2)

/-- Model of `ToolCache.increment_context` (`cache.py` lines 301-319). -/
def cacheIncrementContext (cfg : CacheConfig) (st : Storage) (id : String)
    (now : ℝ) : Bool × Storage :=
  let r := storageIncrementContext st id now
  if r.1 then
    match storageGet r.2 id with
    | some e =>
      (true, (storageUpdateScore r.2 id (computeEntryScore cfg e 1 now)).2)
    | none => (true, r.2)
  else (false, r.2)

/-- Model of `ToolCache.stats` (`cache.py` lines 363-395), returning the
dict as an association list.  Counts are reals because Python mixes the
int totals with the float average in one dict. -/
def cacheStats (st : Storage) : List (String × ℝ) :=
  match st with
  | [] =>
    [("total_entries", 0), ("total_reuse_count", 0),
     ("total_context_count", 0), ("total_references", 0),
     ("avg_reference_count", 0)]
  | _ =>
    let total_reuse : ℤ := st.foldl (fun acc i => acc + i.entry.reuse_count) 0
    let total_context : ℤ :=
      st.foldl (fun acc i => acc + i.entry.provide_context_count) 0
    let max_refs : ℤ := st.foldl
      (fun acc i => max acc (i.entry.reuse_count + i.entry.provide_context_count)) 0
    let total_refs := total_reuse + total_context
    [("total_entries", (st.length : ℝ)),
     ("total_reuse_count", (total_reuse : ℝ)),
     ("total_context_count", (total_context : ℝ)),
     ("total_references", (total_refs : ℝ)),
     ("avg_reference_count", (total_refs : ℝ) / (st.length : ℝ)),
     ("max_reference_count", (max_refs : ℝ))]

/-! ## Decision engine (`interceptor/wrapper.py`) -/

/-- Model of `wrapper.CacheDecision`. -/
inductive CacheDecision where
  | REUSE
  | PROVIDE_CONTEXT
  | EXECUTE
  deriving DecidableEq, Repr

/-- Model of `wrapper.DecisionResult`. -/
structure DecisionResult where
  decision : CacheDecision
  cache_hit : Option CacheHit := none
  context_hints : Option (List CacheHit) := none

/-- Model of `ToolInterceptor.decide` (`interceptor/wrapper.py` lines
61-102).  The raw vector-index answer feeds `ToolCache.search`; the
returned storage reflects the counter increments the decision performs. -/
def interceptorDecide (cfg : CacheConfig) (st : Storage) (v : VectorIndex)
    (now : ℝ) (raw : List RawResult) :
    DecisionResult × Storage × VectorIndex :=
  let r := cacheSearch cfg st v now raw
  match r.1 with
  | [] => (⟨CacheDecision.EXECUTE, none, none⟩, st, r.2.2)
  | best :: rest =>
    if cfg.reuse_threshold ≤ best.similarity then
      (⟨CacheDecision.REUSE, some best, none⟩,
        (cacheIncrementReuse cfg st best.entry.id now).2, r.2.2)
    else if cfg.similarity_threshold ≤ best.similarity then
      match (best :: rest).filter (fun h => h.entry.success) with
      | [] => (⟨CacheDecision.EXECUTE, none, none⟩, st, r.2.2)
      | _ =>
        let hints := ((best :: rest).filter (fun h => h.entry.success)).take 3
        (⟨CacheDecision.PROVIDE_CONTEXT, none, some hints⟩,
          hints.foldl (fun s h => (cacheIncrementContext cfg s h.entry.id now).2)
            st, r.2.2)
    else (⟨CacheDecision.EXECUTE, none, none⟩, st, r.2.2)

/-! ## Operations and reachability

The mutating operations of the public cache surface, as one inductive, so
state invariants can be stated over every reachable state. -/

/-- One mutating call of the public surface: `save` (with the failure
flags of its collaborators), the two counter increments, the compensating
`decrement_reference`, `get_best_match` (which touches the best hit),
the interceptor decision, and `clear`. -/
inductive CacheOp where
  | save (tool : String) (args : List (String × String)) (output : String)
      (success : Bool) (now : ℝ) (uuid : String)
      (setFails deleteFails : Bool) (errMsg : String)
  | incrementReuse (id : String) (now : ℝ)
  | incrementContext (id : String) (now : ℝ)
  | decrementReference (id : String)
  | getBest (now : ℝ) (raw : List RawResult)
  | decideCall (now : ℝ) (raw : List RawResult)
  | clear

/-- The state transformer of one operation on the pair of backing
stores. -/
def applyOp (sha : String → String) (embed : String → List ℝ)
    (cfg : CacheConfig) :
    CacheOp → Storage × VectorIndex → Storage × VectorIndex
  | CacheOp.save tool args output success now uuid sf df err, sv =>
    ((cacheSave sha embed cfg sv.1 sv.2 tool args output success now uuid
        sf df err).storage,
     (cacheSave sha embed cfg sv.1 sv.2 tool args output success now uuid
        sf df err).vindex)
  | CacheOp.incrementReuse id now, sv =>
    ((cacheIncrementReuse cfg sv.1 id now).2, sv.2)
  | CacheOp.incrementContext id now, sv =>
    ((cacheIncrementContext cfg sv.1 id now).2, sv.2)
  | CacheOp.decrementReference id, sv =>
    ((storageDecrementReference sv.1 id).2, sv.2)
  | CacheOp.getBest now raw, sv =>
    ((getBestMatch cfg sv.1 sv.2 now raw).2.1,
     (getBestMatch cfg sv.1 sv.2 now raw).2.2)
  | CacheOp.decideCall now raw, sv =>
    ((interceptorDecide cfg sv.1 sv.2 now raw).2.1,
     (interceptorDecide cfg sv.1 sv.2 now raw).2.2)
  | CacheOp.clear, _ => ([], [])

/-- The states reachable from the freshly constructed (empty) cache by the
public operations. -/
inductive Reachable (sha : String → String) (embed : String → List ℝ)
    (cfg : CacheConfig) : Storage × VectorIndex → Prop where
  | init : Reachable sha embed cfg ([], [])
  | step (s : Storage × VectorIndex) (op : CacheOp) :
      Reachable sha embed cfg s →
      Reachable sha embed cfg (applyOp sha embed cfg op s)

/-- Both reference counters of every stored entry are nonnegative. -/
def CountersNonneg (st : Storage) : Prop :=
  ∀ i ∈ st, 0 ≤ i.entry.reuse_count ∧ 0 ≤ i.entry.provide_context_count

/-! ## Observers used by the specification theorems -/

/-- The pair of reference counters of the entry stored under a key. -/
def countersOf (st : Storage) (k : String) : Option (ℤ × ℤ) :=
  (storageGet st k).map (fun e => (e.reuse_count, e.provide_context_count))

/-- Well-formedness produced by the cache operations: every stored item is
keyed by its entry's id (the dict key and the entry `id` field agree). -/
def KeysMatch (st : Storage) : Prop :=
  ∀ i ∈ st, i.entry.id = i.key

/-! ## Concrete states used by evaluation theorems -/

/-- A concrete cache entry (counters zero, timestamps zero). -/
def exampleEntry : CacheEntry :=
  { id := "k1", uuid := "u1", tool_name := "t", input_text := "x",
    input_args := [], output := "out", embedding := none,
    reuse_count := 0, provide_context_count := 0,
    created_at := 0, last_accessed_at := 0, success := true }

/-- A one-entry storage state holding `exampleEntry` under its id. -/
def exampleStorage : Storage :=
  [⟨"k1", exampleEntry, 0⟩]

/-- A vector-index answer naming `exampleEntry` at distance 0.1, so the
derived similarity is 0.9. -/
def exampleRaw : List RawResult :=
  [⟨"k1", 0.1⟩]

/-- A configuration with `similarity_threshold = 0.5` and
`reuse_threshold = 0.8` (all other fields default). -/
def exampleConfig : CacheConfig :=
  { similarity_threshold := 0.5, reuse_threshold := 0.8 }

end ContextRef

namespace ContextRef

/-! ## Theorems -/

/-- Helper: the score formula is bounded by the similarity plus the
normalized reference term whenever the weighted count is nonnegative and
the elapsed time is nonnegative (nonpositive decay exponent). -/
theorem compute_weighted_score_le (similarity : ℝ) (r c : ℤ)
    (la f lam now : ℝ) (hr : 0 ≤ r) (hc : 0 ≤ c) (hf0 : 0 ≤ f) (hf1 : f ≤ 1)
    (hlam : 0 ≤ lam) (hla : la ≤ now) :
    compute_weighted_score similarity r c la f lam now ≤
      similarity +
        min 1 (Real.log ((f * (r : ℝ) + (1 - f) * (c : ℝ)) + 1) /
          Real.log 100) := by
  unfold compute_weighted_score
  have hrec : Real.exp (-lam * ((now - la) / 3600)) ≤ 1 := by
    rw [Real.exp_le_one_iff]
    have h1 : (0 : ℝ) ≤ (now - la) / 3600 := by
      apply div_nonneg (by linarith) (by norm_num)
    nlinarith
  have hw : 0 ≤ f * (r : ℝ) + (1 - f) * (c : ℝ) := by
    have h1 : (0 : ℝ) ≤ (r : ℝ) := by exact_mod_cast hr
    have h2 : (0 : ℝ) ≤ (c : ℝ) := by exact_mod_cast hc
    have := mul_nonneg hf0 h1
    have := mul_nonneg (by linarith : (0:ℝ) ≤ 1 - f) h2
    linarith
  have hnr : 0 ≤ min (Real.log ((f * (r : ℝ) + (1 - f) * (c : ℝ)) + 1) /
      Real.log 100) 1 := by
    apply le_min _ (by norm_num)
    apply div_nonneg (Real.log_nonneg (by linarith)) (Real.log_nonneg (by norm_num))
  have hmul := mul_le_mul_of_nonneg_left hrec hnr
  rw [mul_one] at hmul
  have hcomm : min (Real.log ((f * (r : ℝ) + (1 - f) * (c : ℝ)) + 1) /
      Real.log 100) 1 = min 1 (Real.log ((f * (r : ℝ) + (1 - f) * (c : ℝ)) + 1) /
      Real.log 100) := min_comm _ _
  rw [← hcomm]
  linarith

/-- C2 counterexample: `compute_weighted_score` does not clamp the elapsed
time.  With `time_decay_lambda = 1 ≥ 0` and a `last_accessed_at` one hour
in the future of `now` (elapsed hours = -1), the recency factor is
`exp 1 > 1` and the returned score `exp 1` exceeds the claimed bound
`similarity + min(1, ln(weighted_count + 1)/ln 100) = 0 + 1`. -/
theorem claim2_counterexample :
    ¬ (compute_weighted_score 0 200 0 3600 0.6 1 0 ≤
        0 + min 1 (Real.log ((0.6 * ((200 : ℤ) : ℝ) + (1 - 0.6) * ((0 : ℤ) : ℝ)) + 1) /
          Real.log 100)) := by
  have hlog : (1 : ℝ) ≤
      Real.log ((0.6 : ℝ) * 200 + (1 - 0.6) * 0 + 1) / Real.log 100 := by
    rw [le_div_iff₀ (Real.log_pos (by norm_num)), one_mul]
    exact Real.log_le_log (by norm_num) (by norm_num)
  unfold compute_weighted_score
  push_cast
  rw [not_le, min_eq_left hlog, min_eq_right hlog]
  have h1 : (-1 : ℝ) * ((0 - 3600) / 3600) = 1 := by norm_num
  rw [h1, one_mul]
  have := Real.one_lt_exp_iff.mpr (by norm_num : (0:ℝ) < 1)
  linarith

/-- C2 (amended): the code computes the elapsed hours without clamping, so
the claimed bound only holds when `last_accessed_at ≤ now`.  Under that
hypothesis, with `time_decay_lambda ≥ 0`, nonnegative counters and
`reuse_context_factor ∈ [0, 1]` (the domain the configuration validates),
the recency factor is at most 1 and the score is at most
`similarity + min(1, ln(weighted_count + 1)/ln 100)`. -/
theorem claim2_theorem (similarity : ℝ) (r c : ℤ) (la f lam now : ℝ)
    (hr : 0 ≤ r) (hc : 0 ≤ c) (hf0 : 0 ≤ f) (hf1 : f ≤ 1)
    (hlam : 0 ≤ lam) (hla : la ≤ now) :
    Real.exp (-lam * ((now - la) / 3600)) ≤ 1 ∧
    compute_weighted_score similarity r c la f lam now ≤
      similarity +
        min 1 (Real.log ((f * (r : ℝ) + (1 - f) * (c : ℝ)) + 1) /
          Real.log 100) := by
  constructor
  · rw [Real.exp_le_one_iff]
    have h1 : (0 : ℝ) ≤ (now - la) / 3600 := by
      apply div_nonneg (by linarith) (by norm_num)
    nlinarith
  · exact compute_weighted_score_le similarity r c la f lam now hr hc hf0 hf1 hlam hla

/-- Witness for the C2 theorem at a concrete input: an entry with counters
2 and 3, accessed one hour before `now`, with the default factors. -/
theorem claim2_witness :
    Real.exp (-(0.01 : ℝ) * ((3600 - 0) / 3600)) ≤ 1 ∧
    compute_weighted_score 0.5 2 3 0 0.6 0.01 3600 ≤
      0.5 + min 1 (Real.log ((0.6 * ((2 : ℤ) : ℝ) + (1 - 0.6) * ((3 : ℤ) : ℝ)) + 1) /
        Real.log 100) :=
  claim2_theorem 0.5 2 3 0 0.6 0.01 3600 (by norm_num) (by norm_num)
    (by norm_num) (by norm_num) (by norm_num) (by norm_num)

/-- C9: with `reuse_context_factor ∈ (0, 1]` (the validated configuration
domain), nonnegative counters and `time_decay_lambda ≥ 0`, the weighted
score is monotonically non-decreasing in `reuse_count` for fixed
similarity, fixed `last_accessed_at` and fixed `provide_context_count`. -/
theorem claim9_theorem (similarity la f lam now : ℝ) (c r1 r2 : ℤ)
    (hf0 : 0 < f) (hf1 : f ≤ 1) (hc : 0 ≤ c) (hr1 : 0 ≤ r1) (hr : r1 ≤ r2)
    (hlam : 0 ≤ lam) :
    compute_weighted_score similarity r1 c la f lam now ≤
      compute_weighted_score similarity r2 c la f lam now := by
  unfold compute_weighted_score
  have hcr : (0 : ℝ) ≤ (c : ℝ) := by exact_mod_cast hc
  have hr1r : (0 : ℝ) ≤ (r1 : ℝ) := by exact_mod_cast hr1
  have hrr : (r1 : ℝ) ≤ (r2 : ℝ) := by exact_mod_cast hr
  have hw1 : 0 ≤ f * (r1 : ℝ) + (1 - f) * (c : ℝ) := by
    have := mul_nonneg hf0.le hr1r
    have := mul_nonneg (by linarith : (0:ℝ) ≤ 1 - f) hcr
    linarith
  have hw : f * (r1 : ℝ) + (1 - f) * (c : ℝ) ≤ f * (r2 : ℝ) + (1 - f) * (c : ℝ) := by
    have := mul_le_mul_of_nonneg_left hrr hf0.le
    linarith
  have hlog : Real.log (f * (r1 : ℝ) + (1 - f) * (c : ℝ) + 1) ≤
      Real.log (f * (r2 : ℝ) + (1 - f) * (c : ℝ) + 1) :=
    Real.log_le_log (by linarith) (by linarith)
  have hlog100 : (0 : ℝ) < Real.log 100 := Real.log_pos (by norm_num)
  have hdiv : Real.log (f * (r1 : ℝ) + (1 - f) * (c : ℝ) + 1) / Real.log 100 ≤
      Real.log (f * (r2 : ℝ) + (1 - f) * (c : ℝ) + 1) / Real.log 100 := by
    exact div_le_div_of_nonneg_right hlog hlog100.le
  have hmin : min (Real.log (f * (r1 : ℝ) + (1 - f) * (c : ℝ) + 1) / Real.log 100) 1 ≤
      min (Real.log (f * (r2 : ℝ) + (1 - f) * (c : ℝ) + 1) / Real.log 100) 1 :=
    min_le_min hdiv le_rfl
  have hrec : (0 : ℝ) ≤ Real.exp (-lam * ((now - la) / 3600)) :=
    (Real.exp_pos _).le
  have key := mul_le_mul_of_nonneg_right hmin hrec
  linarith

/-- Witness for the C9 theorem: raising `reuse_count` from 0 to 10 at the
default factors does not decrease the score. -/
theorem claim9_witness :
    compute_weighted_score 0.9 0 0 0 0.6 0.01 0 ≤
      compute_weighted_score 0.9 10 0 0 0.6 0.01 0 :=
  claim9_theorem 0.9 0 0.6 0.01 0 0 0 10 (by norm_num) (by norm_num)
    (by norm_num) (by norm_num) (by norm_num) (by norm_num)

/-- C10: `CacheHit.should_reuse` compares the similarity against the
hardcoded constant 0.95, independent of the configured `reuse_threshold`.
With the valid configuration `exampleConfig` (`reuse_threshold = 0.8`) and
a search hit of similarity 0.9, the decision engine classifies the call as
REUSE, yet the returned hit has `should_reuse` false. -/
theorem claim10_theorem :
    (∀ h : CacheHit, h.should_reuse ↔ 0.95 ≤ h.similarity) ∧
    CacheConfig.Valid exampleConfig ∧
    exampleConfig.reuse_threshold = 0.8 ∧
    ((interceptorDecide exampleConfig exampleStorage [] 0 exampleRaw).1.cache_hit).map
      (fun h => h.similarity) = some 0.9 ∧
    (interceptorDecide exampleConfig exampleStorage [] 0 exampleRaw).1.decision =
      CacheDecision.REUSE ∧
    (∀ h, (interceptorDecide exampleConfig exampleStorage [] 0 exampleRaw).1.cache_hit =
      some h → ¬ h.should_reuse) := by
  refine ⟨fun h => Iff.rfl, ?_, rfl, ?_, ?_, ?_⟩
  · refine ⟨by norm_num [exampleConfig], by norm_num [exampleConfig],
      by norm_num [exampleConfig], by norm_num [exampleConfig],
      by norm_num [exampleConfig], by norm_num [exampleConfig],
      by norm_num [exampleConfig], by norm_num [exampleConfig],
      by norm_num [exampleConfig], by norm_num [exampleConfig]⟩
  · simp [interceptorDecide, cacheSearch, searchCollect, storageGet, storageExists,
      exampleConfig, exampleStorage, exampleRaw, exampleEntry,
      List.find?, List.mergeSort_singleton]
    norm_num
  · simp [interceptorDecide, cacheSearch, searchCollect, storageGet, storageExists,
      exampleConfig, exampleStorage, exampleRaw, exampleEntry, cacheIncrementReuse,
      List.find?, List.mergeSort_singleton]
    norm_num
  · intro h hh
    simp [interceptorDecide, cacheSearch, searchCollect, storageGet, storageExists,
      exampleConfig, exampleStorage, exampleRaw, exampleEntry,
      List.find?, List.mergeSort_singleton] at hh
    norm_num at hh
    subst hh
    simp [CacheHit.should_reuse]
    norm_num

/-- Helper: folding an integer accumulation equals the starting value plus
the sum of the mapped list. -/
theorem foldl_add_eq_sum (f : StoredItem → ℤ) (l : List StoredItem) (a : ℤ) :
    l.foldl (fun acc i => acc + f i) a = a + (l.map f).sum := by
  induction l generalizing a with
  | nil => simp
  | cons x xs ih => simp [ih, add_assoc]

/-- C7 counterexample: on the empty cache, `stats()` returns a dict with
only five fields; `max_reference_count` is absent, refuting the claim that
every one of the six fields is present and zero-valued when the cache is
empty. -/
theorem claim7_counterexample :
    (cacheStats []).lookup "max_reference_count" = none ∧
    (cacheStats []).map Prod.fst =
      ["total_entries", "total_reuse_count", "total_context_count",
       "total_references", "avg_reference_count"] := by
  constructor
  · simp [cacheStats, List.lookup]
  · simp [cacheStats]

/-- C7 (amended): on a non-empty cache, `stats()` aggregates all six
fields by scanning every stored entry; on the empty cache it returns
exactly the five fields `total_entries`, `total_reuse_count`,
`total_context_count`, `total_references`, `avg_reference_count`, all
zero-valued, with `max_reference_count` absent. -/
theorem claim7_theorem (st : Storage) :
    (st = [] → cacheStats st =
      [("total_entries", 0), ("total_reuse_count", 0),
       ("total_context_count", 0), ("total_references", 0),
       ("avg_reference_count", 0)] ∧
      (cacheStats st).lookup "max_reference_count" = none) ∧
    (st ≠ [] →
      (cacheStats st).lookup "total_entries" = some (st.length : ℝ) ∧
      (cacheStats st).lookup "total_reuse_count" =
        some (((st.map (fun i => i.entry.reuse_count)).sum : ℤ) : ℝ) ∧
      (cacheStats st).lookup "total_context_count" =
        some (((st.map (fun i => i.entry.provide_context_count)).sum : ℤ) : ℝ) ∧
      (cacheStats st).lookup "total_references" =
        some ((((st.map (fun i => i.entry.reuse_count)).sum +
          (st.map (fun i => i.entry.provide_context_count)).sum : ℤ)) : ℝ) ∧
      (cacheStats st).lookup "avg_reference_count" =
        some ((((st.map (fun i => i.entry.reuse_count)).sum +
          (st.map (fun i => i.entry.provide_context_count)).sum : ℤ) : ℝ) /
            (st.length : ℝ)) ∧
      (cacheStats st).lookup "max_reference_count" =
        some (((st.map (fun i => i.entry.total_reference_count)).foldl max 0 : ℤ) : ℝ)) := by
  constructor
  · rintro rfl
    exact ⟨rfl, by simp [cacheStats, List.lookup]⟩
  · intro hne
    obtain ⟨a, tl, rfl⟩ := List.exists_cons_of_ne_nil hne
    have hmax : ((a :: tl).map (fun i => i.entry.total_reference_count)).foldl max 0 =
        (a :: tl).foldl
          (fun acc i => max acc (i.entry.reuse_count + i.entry.provide_context_count)) 0 := by
      rw [List.foldl_map]
      simp [CacheEntry.total_reference_count]
    refine ⟨?_, ?_, ?_, ?_, ?_, ?_⟩
    · simp [cacheStats, List.lookup, foldl_add_eq_sum]
    · simp [cacheStats, List.lookup, foldl_add_eq_sum]
    · simp [cacheStats, List.lookup, foldl_add_eq_sum]
    · simp [cacheStats, List.lookup, foldl_add_eq_sum]
    · simp [cacheStats, List.lookup, foldl_add_eq_sum]
    · rw [hmax]
      simp [cacheStats, List.lookup]

/-- Witness for the C7 theorem: the non-empty branch evaluated on the
one-entry example storage, and the empty branch on the empty storage. -/
theorem claim7_witness :
    (cacheStats exampleStorage).lookup "total_entries" =
      some ((exampleStorage.length : ℕ) : ℝ) ∧
    (cacheStats []).lookup "max_reference_count" = none :=
  ⟨((claim7_theorem exampleStorage).2 (by simp [exampleStorage])).1,
   ((claim7_theorem []).1 rfl).2⟩

/-! ## Storage lemma toolkit -/

/-- Helper: a keyed update of the shape used by the storage backend (map
the matching item through a key-preserving transformation) interacts with
`storageGet` key by key. -/
theorem storageGet_map_if (st : Storage) (id k : String)
    (f g : StoredItem → StoredItem)
    (hf : ∀ i, f i = if i.key == id then g i else i)
    (hkey : ∀ i, i.key = id → (g i).key = i.key) :
    storageGet (st.map f) k =
      if k = id then
        (st.find? (fun i => i.key == k)).map (fun i => (g i).entry)
      else storageGet st k := by
  unfold storageGet
  rw [List.find?_map]
  have hp : ((fun i : StoredItem => i.key == k) ∘ f) =
      (fun i : StoredItem => i.key == k) := by
    funext i
    rw [Function.comp_apply, hf i]
    by_cases hi : i.key = id
    · simp [hi, hkey i hi]
    · simp [hi]
  rw [hp, Option.map_map]
  cases hfind : st.find? (fun i => i.key == k) with
  | none => simp
  | some a =>
    have ha : a.key = k := by simpa using List.find?_some hfind
    by_cases hk : k = id
    · simp [Function.comp, hf a, ha, hk]
    · simp [Function.comp, hf a, ha, hk]

/-- Helper: a keyed update whose transformation only rewrites the entry
through `u` (and the score arbitrarily) acts on `storageGet` as
`Option.map u` at the key. -/
theorem storageGet_map_pointwise (st : Storage) (id k : String)
    (f : StoredItem → StoredItem) (u : CacheEntry → CacheEntry) (w : StoredItem → ℝ)
    (hf : ∀ i, f i = if i.key == id then StoredItem.mk i.key (u i.entry) (w i) else i) :
    storageGet (st.map f) k =
      if k = id then (storageGet st k).map u else storageGet st k := by
  rw [storageGet_map_if st id k f
    (fun i => StoredItem.mk i.key (u i.entry) (w i)) hf (fun i _ => rfl)]
  by_cases hk : k = id
  · rw [if_pos hk, if_pos hk]
    unfold storageGet
    rw [Option.map_map]
    rfl
  · rw [if_neg hk, if_neg hk]

/-- Helper: an absent key reads as `none`. -/
theorem storageGet_eq_none (st : Storage) (k : String)
    (h : storageExists st k = false) : storageGet st k = none := by
  unfold storageExists at h
  rw [List.any_eq_false] at h
  unfold storageGet
  rw [List.find?_eq_none.mpr h]
  rfl

/-- Helper: presence in storage equals readability. -/
theorem storageExists_iff_isSome (st : Storage) (k : String) :
    storageExists st k = true ↔ (storageGet st k).isSome := by
  unfold storageExists storageGet
  rw [List.any_eq_true, ← List.find?_isSome]
  cases st.find? (fun i => i.key == k) <;> simp

/-- Helper: `storageIncrementReuse` updates exactly the target key, adding
one to `reuse_count` and setting the access time. -/
theorem storageGet_incReuse (st : Storage) (id k : String) (now : ℝ) :
    storageGet (storageIncrementReuse st id now).2 k =
      if k = id then
        (storageGet st k).map (fun e =>
          { e with reuse_count := e.reuse_count + 1, last_accessed_at := now })
      else storageGet st k := by
  unfold storageIncrementReuse
  by_cases hex : storageExists st id
  · rw [if_pos hex]
    try simp only []
    exact storageGet_map_pointwise st id k _
      (fun e => { e with reuse_count := e.reuse_count + 1, last_accessed_at := now })
      (fun i => i.score) (fun i => rfl)
  · rw [if_neg hex]
    try simp only []
    by_cases hk : k = id
    · rw [if_pos hk, hk, storageGet_eq_none st id (by simpa using hex)]
      rfl
    · rw [if_neg hk]

/-- Helper: `storageIncrementContext` updates exactly the target key. -/
theorem storageGet_incContext (st : Storage) (id k : String) (now : ℝ) :
    storageGet (storageIncrementContext st id now).2 k =
      if k = id then
        (storageGet st k).map (fun e =>
          { e with provide_context_count := e.provide_context_count + 1,
                   last_accessed_at := now })
      else storageGet st k := by
  unfold storageIncrementContext
  by_cases hex : storageExists st id
  · rw [if_pos hex]
    try simp only []
    exact storageGet_map_pointwise st id k _
      (fun e => { e with
                  provide_context_count := e.provide_context_count + 1,
                  last_accessed_at := now })
      (fun i => i.score) (fun i => rfl)
  · rw [if_neg hex]
    try simp only []
    by_cases hk : k = id
    · rw [if_pos hk, hk, storageGet_eq_none st id (by simpa using hex)]
      rfl
    · rw [if_neg hk]

/-- Helper: `storageUpdateAccessTime` rewrites only the access time of the
target key. -/
theorem storageGet_updateAccessTime (st : Storage) (id k : String) (now : ℝ) :
    storageGet (storageUpdateAccessTime st id now).2 k =
      if k = id then
        (storageGet st k).map (fun e => { e with last_accessed_at := now })
      else storageGet st k := by
  unfold storageUpdateAccessTime
  by_cases hex : storageExists st id
  · rw [if_pos hex]
    try simp only []
    exact storageGet_map_pointwise st id k _
      (fun e => { e with last_accessed_at := now })
      (fun i => i.score) (fun i => rfl)
  · rw [if_neg hex]
    try simp only []
    by_cases hk : k = id
    · rw [if_pos hk, hk, storageGet_eq_none st id (by simpa using hex)]
      rfl
    · rw [if_neg hk]

/-- Helper: `storageDecrementReference` rewrites only the target key,
through the guarded decrement. -/
theorem storageGet_decRef (st : Storage) (id k : String) :
    storageGet (storageDecrementReference st id).2 k =
      if k = id then (storageGet st k).map decrementEntry
      else storageGet st k := by
  unfold storageDecrementReference
  by_cases hex : storageExists st id
  · rw [if_pos hex]
    try simp only []
    exact storageGet_map_pointwise st id k _ decrementEntry
      (fun i => i.score) (fun i => rfl)
  · rw [if_neg hex]
    try simp only []
    by_cases hk : k = id
    · rw [if_pos hk, hk, storageGet_eq_none st id (by simpa using hex)]
      rfl
    · rw [if_neg hk]

/-- Helper: a score update leaves every stored entry unchanged. -/
theorem storageGet_updateScore (st : Storage) (id k : String) (sc : ℝ) :
    storageGet (storageUpdateScore st id sc).2 k = storageGet st k := by
  unfold storageUpdateScore
  by_cases hex : storageExists st id
  · rw [if_pos hex]
    try simp only []
    rw [storageGet_map_pointwise st id k _ (fun e => e) (fun _ => sc) (fun i => rfl)]
    by_cases hk : k = id
    · rw [if_pos hk]
      simp
    · rw [if_neg hk]
  · rw [if_neg hex]

/-- Helper: `storageSet` stores the entry under the key and leaves all
other keys unchanged. -/
theorem storageGet_set (st : Storage) (key k : String) (e : CacheEntry)
    (sc : ℝ) :
    storageGet (storageSet st key e sc) k =
      if k = key then some e else storageGet st k := by
  unfold storageSet
  by_cases hex : storageExists st key
  · rw [if_pos hex]
    rw [storageGet_map_if st key k _ (fun _ => StoredItem.mk key e sc)
      (fun i => rfl) (fun i hi => hi.symm)]
    by_cases hk : k = key
    · rw [if_pos hk, if_pos hk]
      rw [storageExists_iff_isSome] at hex
      cases hfind : st.find? (fun i => i.key == k) with
      | none =>
        rw [hk] at hfind
        unfold storageGet at hex
        rw [hfind] at hex
        simp at hex
      | some a => rfl
    · rw [if_neg hk, if_neg hk]
  · rw [if_neg hex]
    unfold storageGet
    rw [List.find?_append]
    by_cases hk : k = key
    · rw [if_pos hk]
      have h1 : st.find? (fun i => i.key == k) = none := by
        have h2 : storageExists st k = false := by
          rw [hk]; simpa using hex
        unfold storageExists at h2
        rw [List.any_eq_false] at h2
        exact List.find?_eq_none.mpr h2
      rw [h1]
      simp [hk]
    · rw [if_neg hk]
      have h2 : List.find? (fun i => i.key == k)
          [(⟨key, e, sc⟩ : StoredItem)] = none := by
        simp [Ne.symm hk]
      rw [h2]
      rw [Option.or_none]

/-- Helper: `cacheIncrementReuse` updates exactly the target key in
storage, adding one reuse and refreshing the access time (the score
rewrite touches no entry). -/
theorem storageGet_cacheIncReuse (cfg : CacheConfig) (st : Storage)
    (id k : String) (now : ℝ) :
    storageGet (cacheIncrementReuse cfg st id now).2 k =
      if k = id then
        (storageGet st k).map (fun e =>
          { e with reuse_count := e.reuse_count + 1, last_accessed_at := now })
      else storageGet st k := by
  simp only [cacheIncrementReuse]
  split
  · split
    · try simp only []
      rw [storageGet_updateScore]
      exact storageGet_incReuse st id k now
    · try simp only []
      exact storageGet_incReuse st id k now
  · try simp only []
    exact storageGet_incReuse st id k now

/-- Helper: `cacheIncrementContext` updates exactly the target key in
storage, adding one context reference and refreshing the access time. -/
theorem storageGet_cacheIncContext (cfg : CacheConfig) (st : Storage)
    (id k : String) (now : ℝ) :
    storageGet (cacheIncrementContext cfg st id now).2 k =
      if k = id then
        (storageGet st k).map (fun e =>
          { e with provide_context_count := e.provide_context_count + 1,
                   last_accessed_at := now })
      else storageGet st k := by
  simp only [cacheIncrementContext]
  split
  · split
    · try simp only []
      rw [storageGet_updateScore]
      exact storageGet_incContext st id k now
    · try simp only []
      exact storageGet_incContext st id k now
  · try simp only []
    exact storageGet_incContext st id k now

/-- Helper: `touchEntry` rewrites only the access time of the target key
(the score rewrite touches no entry). -/
theorem storageGet_touchEntry (cfg : CacheConfig) (st : Storage)
    (id k : String) (now : ℝ) :
    storageGet (touchEntry cfg st id now) k =
      if k = id then
        (storageGet st k).map (fun e => { e with last_accessed_at := now })
      else storageGet st k := by
  simp only [touchEntry]
  split
  · split
    · exact storageGet_updateAccessTime st id k now
    · try simp only []
      rw [storageGet_updateScore]
      exact storageGet_updateAccessTime st id k now
  · rename_i h
    have hex : storageExists st id = false := by
      by_cases hx : storageExists st id
      · exfalso
        apply h
        unfold storageUpdateAccessTime
        rw [if_pos hx]
      · simpa using hx
    by_cases hk : k = id
    · rw [if_pos hk, hk, storageGet_eq_none st id hex]
      rfl
    · rw [if_neg hk]

/-- C6 counterexample: `ToolCache.search` returns `exampleEntry` as a hit
at evaluation instant 100, yet the storage state is unchanged by the
search and the entry's stored `last_accessed_at` remains 0 — an entry
returned as a plain search hit does not get its access time updated,
refuting the claim for the search-hit case. -/
theorem claim6_counterexample :
    ((cacheSearch exampleConfig exampleStorage [] 100 exampleRaw).1.map
      (fun h => (h.entry.id, h.entry.last_accessed_at))) = [("k1", (0 : ℝ))] ∧
    (cacheSearch exampleConfig exampleStorage [] 100 exampleRaw).2.1 =
      exampleStorage ∧
    (storageGet exampleStorage "k1").map (fun e => e.last_accessed_at) =
      some (0 : ℝ) ∧
    (0 : ℝ) ≠ 100 := by
  refine ⟨?_, ?_, ?_, by norm_num⟩
  · simp [cacheSearch, searchCollect, storageGet, storageExists, exampleConfig,
      exampleStorage, exampleRaw, exampleEntry, List.find?, List.mergeSort_singleton]
    norm_num
  · simp [cacheSearch, exampleRaw]
  · simp [storageGet, exampleStorage, exampleEntry, List.find?]

/-- C6 (amended): an entry's `last_accessed_at` is refreshed by the reuse
increment, by the context increment and by the best-match touch, and never
by a mere existence check (`storageExists` is a pure read, equivalent to
`isSome` of the read); a plain `search` however does not refresh it — the
storage component of the search result is the unchanged input state. -/
theorem claim6_theorem (cfg : CacheConfig) (st : Storage) (v : VectorIndex)
    (id : String) (now : ℝ) (e : CacheEntry) (raw : List RawResult) :
    (storageGet st id = some e →
      storageGet (cacheIncrementReuse cfg st id now).2 id =
        some { e with reuse_count := e.reuse_count + 1,
                      last_accessed_at := now }) ∧
    (storageGet st id = some e →
      storageGet (cacheIncrementContext cfg st id now).2 id =
        some { e with provide_context_count := e.provide_context_count + 1,
                      last_accessed_at := now }) ∧
    (storageGet st id = some e →
      storageGet (touchEntry cfg st id now) id =
        some { e with last_accessed_at := now }) ∧
    (storageExists st id = true ↔ (storageGet st id).isSome) ∧
    (cacheSearch cfg st v now raw).2.1 = st := by
  refine ⟨?_, ?_, ?_, storageExists_iff_isSome st id, ?_⟩
  · intro h
    rw [storageGet_cacheIncReuse, if_pos rfl, h]
    rfl
  · intro h
    rw [storageGet_cacheIncContext, if_pos rfl, h]
    rfl
  · intro h
    rw [storageGet_touchEntry, if_pos rfl, h]
    rfl
  · unfold cacheSearch
    cases raw <;> rfl

/-- Witness for the C6 theorem: the reuse increment and the touch applied
to the one-entry example state both stamp the access time 100. -/
theorem claim6_witness :
    storageGet (cacheIncrementReuse exampleConfig exampleStorage "k1" 100).2 "k1" =
      some { exampleEntry with reuse_count := exampleEntry.reuse_count + 1,
                               last_accessed_at := 100 } ∧
    storageGet (touchEntry exampleConfig exampleStorage "k1" 100) "k1" =
      some { exampleEntry with last_accessed_at := 100 } :=
  ⟨(claim6_theorem exampleConfig exampleStorage [] "k1" 100 exampleEntry []).1
     (by simp [storageGet, exampleStorage, List.find?]),
   ((claim6_theorem exampleConfig exampleStorage [] "k1" 100 exampleEntry
      []).2.2.1)
     (by simp [storageGet, exampleStorage, List.find?])⟩

/-- Helper: an entry read under a matching key carries that key as its id
when the state is key-consistent. -/
theorem entry_id_of_storageGet (st : Storage) (key : String) (e : CacheEntry)
    (hkeys : KeysMatch st) (h : storageGet st key = some e) : e.id = key := by
  unfold storageGet at h
  cases hfind : st.find? (fun i => i.key == key) with
  | none => rw [hfind] at h; simp at h
  | some i =>
    rw [hfind] at h
    simp at h
    have hmem := List.mem_of_find?_eq_some hfind
    have hkey : i.key = key := by simpa using List.find?_some hfind
    rw [← h, hkeys i hmem, hkey]

/-- Helper: every hit produced by the candidate loop of `search` was read
out of storage under one of the raw candidate ids, and its similarity
clears the configured threshold. -/
theorem searchCollect_mem (cfg : CacheConfig) (st : Storage) (now : ℝ) :
    ∀ (raw : List RawResult) (v : VectorIndex) (h : CacheHit),
      h ∈ (searchCollect cfg st now raw v).1 →
      (∃ r ∈ raw, storageGet st r.id = some h.entry) ∧
      cfg.similarity_threshold ≤ h.similarity := by
  intro raw
  induction raw with
  | nil =>
    intro v h hmem
    simp [searchCollect] at hmem
  | cons r rest ih =>
    intro v h hmem
    simp only [searchCollect] at hmem
    split at hmem
    · obtain ⟨⟨r2, hr2, hr2g⟩, hsim⟩ := ih _ h hmem
      exact ⟨⟨r2, List.mem_cons_of_mem _ hr2, hr2g⟩, hsim⟩
    · rename_i e hget
      split at hmem
      · obtain ⟨⟨r2, hr2, hr2g⟩, hsim⟩ := ih _ h hmem
        exact ⟨⟨r2, List.mem_cons_of_mem _ hr2, hr2g⟩, hsim⟩
      · rename_i hlt
        try simp only [] at hmem
        rcases List.mem_cons.mp hmem with hEq | hmemr
        · subst hEq
          refine ⟨⟨r, List.mem_cons_self r rest, hget⟩, ?_⟩
          exact not_lt.mp hlt
        · obtain ⟨⟨r2, hr2, hr2g⟩, hsim⟩ := ih _ h hmemr
          exact ⟨⟨r2, List.mem_cons_of_mem _ hr2, hr2g⟩, hsim⟩

/-- Helper: membership through the sorted hit list of `search`. -/
theorem cacheSearch_mem (cfg : CacheConfig) (st : Storage) (v : VectorIndex)
    (now : ℝ) (raw : List RawResult) (h : CacheHit)
    (hmem : h ∈ (cacheSearch cfg st v now raw).1) :
    (∃ r ∈ raw, storageGet st r.id = some h.entry) ∧
    cfg.similarity_threshold ≤ h.similarity := by
  cases raw with
  | nil =>
    unfold cacheSearch at hmem
    simp at hmem
  | cons r rest =>
    have hperm : (cacheSearch cfg st v now (r :: rest)).1.Perm
        (searchCollect cfg st now (r :: rest) v).1 :=
      List.mergeSort_perm _ _
    exact searchCollect_mem cfg st now (r :: rest) v h (hperm.mem_iff.mp hmem)

/-- Helper: in a key-consistent state, every search hit is readable in
storage under its own entry id. -/
theorem cacheSearch_get_self (cfg : CacheConfig) (st : Storage)
    (v : VectorIndex) (now : ℝ) (raw : List RawResult) (h : CacheHit)
    (hkeys : KeysMatch st) (hmem : h ∈ (cacheSearch cfg st v now raw).1) :
    storageGet st h.entry.id = some h.entry := by
  obtain ⟨⟨r, _, hget⟩, _⟩ := cacheSearch_mem cfg st v now raw h hmem
  have hid : h.entry.id = r.id := entry_id_of_storageGet st r.id h.entry hkeys hget
  rw [hid]
  exact hget

/-- Helper: the counter view of the reuse increment. -/
theorem countersOf_cacheIncReuse (cfg : CacheConfig) (st : Storage)
    (id k : String) (now : ℝ) :
    countersOf (cacheIncrementReuse cfg st id now).2 k =
      if k = id then (countersOf st k).map (fun p => (p.1 + 1, p.2))
      else countersOf st k := by
  unfold countersOf
  rw [storageGet_cacheIncReuse]
  by_cases hk : k = id
  · rw [if_pos hk, if_pos hk]
    cases storageGet st k <;> simp
  · rw [if_neg hk, if_neg hk]

/-- Helper: the counter view of the context increment. -/
theorem countersOf_cacheIncContext (cfg : CacheConfig) (st : Storage)
    (id k : String) (now : ℝ) :
    countersOf (cacheIncrementContext cfg st id now).2 k =
      if k = id then (countersOf st k).map (fun p => (p.1, p.2 + 1))
      else countersOf st k := by
  unfold countersOf
  rw [storageGet_cacheIncContext]
  by_cases hk : k = id
  · rw [if_pos hk, if_pos hk]
    cases storageGet st k <;> simp
  · rw [if_neg hk, if_neg hk]

/-- Helper: the counter view of folding the context increment over a list
of hints with pairwise distinct entry ids (the PROVIDE_CONTEXT effect). -/
theorem countersOf_foldl_incContext (cfg : CacheConfig) (now : ℝ) :
    ∀ (hints : List CacheHit) (st : Storage) (k : String),
      (hints.map (fun h => h.entry.id)).Nodup →
      countersOf (hints.foldl
        (fun s h => (cacheIncrementContext cfg s h.entry.id now).2) st) k =
        if k ∈ hints.map (fun h => h.entry.id) then
          (countersOf st k).map (fun p => (p.1, p.2 + 1))
        else countersOf st k := by
  intro hints
  induction hints with
  | nil =>
    intro st k _
    simp
  | cons h0 rest ih =>
    intro st k hnd
    simp only [List.map_cons, List.nodup_cons] at hnd
    obtain ⟨hnotin, hndr⟩ := hnd
    simp only [List.foldl_cons, List.map_cons, List.mem_cons]
    rw [ih _ k hndr]
    by_cases hk0 : k = h0.entry.id
    · have hkr : k ∉ rest.map (fun h => h.entry.id) := by
        rw [hk0]
        exact hnotin
      rw [if_neg hkr, countersOf_cacheIncContext, if_pos hk0,
        if_pos (Or.inl hk0)]
    · by_cases hkr : k ∈ rest.map (fun h => h.entry.id)
      · rw [if_pos hkr, countersOf_cacheIncContext, if_neg hk0,
          if_pos (Or.inr hkr)]
      · rw [if_neg hkr, countersOf_cacheIncContext, if_neg hk0,
          if_neg (by tauto)]

/-- C1: the decision engine on the outcome of the cache search: no hits
gives EXECUTE with storage untouched; a best hit clearing
`reuse_threshold` gives REUSE and increments exactly that entry's
`reuse_count` by one; otherwise, when some hit is successful, the decision
is PROVIDE_CONTEXT with the first three successful hits as hints, each
hint's `provide_context_count` incremented by one and nothing else
touched; when no hit is successful the decision is EXECUTE and no counter
changes.  The first conjunct shows every search hit already clears
`similarity_threshold`, so the claim's remaining EXECUTE case (best hit
below `similarity_threshold`) cannot arise from a search result. -/
theorem claim1_theorem (cfg : CacheConfig) (st : Storage) (v : VectorIndex)
    (now : ℝ) (raw : List RawResult) (hkeys : KeysMatch st) :
    (∀ h ∈ (cacheSearch cfg st v now raw).1,
        cfg.similarity_threshold ≤ h.similarity) ∧
    ((cacheSearch cfg st v now raw).1 = [] →
      (interceptorDecide cfg st v now raw).1.decision = CacheDecision.EXECUTE ∧
      (interceptorDecide cfg st v now raw).2.1 = st) ∧
    (∀ best rest, (cacheSearch cfg st v now raw).1 = best :: rest →
      cfg.reuse_threshold ≤ best.similarity →
      (interceptorDecide cfg st v now raw).1.decision = CacheDecision.REUSE ∧
      (interceptorDecide cfg st v now raw).1.cache_hit = some best ∧
      countersOf st best.entry.id ≠ none ∧
      countersOf (interceptorDecide cfg st v now raw).2.1 best.entry.id =
        (countersOf st best.entry.id).map (fun p => (p.1 + 1, p.2)) ∧
      (∀ k, k ≠ best.entry.id →
        countersOf (interceptorDecide cfg st v now raw).2.1 k =
          countersOf st k)) ∧
    (∀ best rest, (cacheSearch cfg st v now raw).1 = best :: rest →
      ¬ cfg.reuse_threshold ≤ best.similarity →
      cfg.similarity_threshold ≤ best.similarity →
      ((best :: rest).map (fun h => h.entry.id)).Nodup →
      ∀ s0 ss, (best :: rest).filter (fun h => h.entry.success) = s0 :: ss →
      (interceptorDecide cfg st v now raw).1.decision =
        CacheDecision.PROVIDE_CONTEXT ∧
      (interceptorDecide cfg st v now raw).1.context_hints =
        some ((s0 :: ss).take 3) ∧
      (∀ h ∈ (s0 :: ss).take 3,
        countersOf st h.entry.id ≠ none ∧
        countersOf (interceptorDecide cfg st v now raw).2.1 h.entry.id =
          (countersOf st h.entry.id).map (fun p => (p.1, p.2 + 1))) ∧
      (∀ k, k ∉ ((s0 :: ss).take 3).map (fun h => h.entry.id) →
        countersOf (interceptorDecide cfg st v now raw).2.1 k =
          countersOf st k)) ∧
    (∀ best rest, (cacheSearch cfg st v now raw).1 = best :: rest →
      ¬ cfg.reuse_threshold ≤ best.similarity →
      (best :: rest).filter (fun h => h.entry.success) = [] →
      (interceptorDecide cfg st v now raw).1.decision = CacheDecision.EXECUTE ∧
      (interceptorDecide cfg st v now raw).2.1 = st) := by
  refine ⟨?_, ?_, ?_, ?_, ?_⟩
  · intro h hm
    exact (cacheSearch_mem cfg st v now raw h hm).2
  · intro hnil
    simp only [interceptorDecide, hnil]
    exact ⟨by trivial, by trivial⟩
  · intro best rest hhits hge
    have hbestmem : best ∈ (cacheSearch cfg st v now raw).1 := by
      rw [hhits]
      exact List.mem_cons_self best rest
    have hgetbest := cacheSearch_get_self cfg st v now raw best hkeys hbestmem
    simp only [interceptorDecide, hhits, if_pos hge]
    refine ⟨by trivial, by trivial, ?_, ?_, ?_⟩
    · unfold countersOf
      rw [hgetbest]
      simp
    · rw [countersOf_cacheIncReuse, if_pos rfl]
    · intro k hk
      rw [countersOf_cacheIncReuse, if_neg hk]
  · intro best rest hhits hnge hsim hnd s0 ss hfilter
    have hndhints : (((s0 :: ss).take 3).map (fun h => h.entry.id)).Nodup := by
      have hs1 : ((s0 :: ss).take 3).Sublist (s0 :: ss) := List.take_sublist 3 _
      have hs2 : (s0 :: ss).Sublist (best :: rest) := by
        rw [← hfilter]
        exact List.filter_sublist _
      exact List.Sublist.nodup ((hs1.trans hs2).map (fun h => h.entry.id)) hnd
    have hmemhints : ∀ h ∈ (s0 :: ss).take 3,
        h ∈ (cacheSearch cfg st v now raw).1 := by
      intro h hm
      have h1 : h ∈ s0 :: ss := (List.take_sublist 3 _).mem hm
      rw [← hfilter] at h1
      have h2 : h ∈ best :: rest := List.mem_of_mem_filter h1
      rw [hhits]
      exact h2
    simp only [interceptorDecide, hhits, if_neg hnge, if_pos hsim, hfilter]
    refine ⟨by trivial, by trivial, ?_, ?_⟩
    · intro h hm
      have hget := cacheSearch_get_self cfg st v now raw h hkeys (hmemhints h hm)
      constructor
      · unfold countersOf
        rw [hget]
        simp
      · rw [countersOf_foldl_incContext cfg now _ st h.entry.id hndhints]
        rw [if_pos (List.mem_map_of_mem (fun h => h.entry.id) hm)]
    · intro k hk
      rw [countersOf_foldl_incContext cfg now _ st k hndhints, if_neg hk]
  · intro best rest hhits hnge hfilter
    by_cases hsim : cfg.similarity_threshold ≤ best.similarity
    · simp only [interceptorDecide, hhits, if_neg hnge, if_pos hsim, hfilter]
      exact ⟨by trivial, by trivial⟩
    · simp only [interceptorDecide, hhits, if_neg hnge, if_neg hsim]
      exact ⟨by trivial, by trivial⟩

/-- Witness for the C1 theorem: on the one-entry example state with a hit
of similarity 0.9 and `reuse_threshold = 0.8`, the decision is REUSE and
the stored counters move from (0, 0) to (1, 0). -/
theorem claim1_witness :
    (interceptorDecide exampleConfig exampleStorage [] 0 exampleRaw).1.decision =
      CacheDecision.REUSE ∧
    countersOf
      (interceptorDecide exampleConfig exampleStorage [] 0 exampleRaw).2.1 "k1" =
      some ((1 : ℤ), (0 : ℤ)) := by
  have hsearch : (cacheSearch exampleConfig exampleStorage [] 0 exampleRaw).1 =
      [⟨exampleEntry, 0.9, compute_weighted_score 0.9 0 0 0 0.6 0.01 0⟩] := by
    norm_num [cacheSearch, searchCollect, storageGet, storageExists,
      exampleConfig, exampleStorage, exampleRaw, exampleEntry, List.find?,
      List.mergeSort_singleton]
  have hkeys : KeysMatch exampleStorage := by
    intro i hi
    simp only [exampleStorage, List.mem_singleton] at hi
    subst hi
    simp [exampleEntry]
  have h := (claim1_theorem exampleConfig exampleStorage [] 0 exampleRaw
      hkeys).2.2.1
  have h2 := h ⟨exampleEntry, 0.9, compute_weighted_score 0.9 0 0 0 0.6 0.01 0⟩
      [] hsearch (by norm_num [exampleConfig])
  refine ⟨h2.1, ?_⟩
  have h3 := h2.2.2.2.1
  simp only [exampleEntry] at h3
  rw [h3]
  simp [countersOf, storageGet, exampleStorage, exampleEntry, List.find?]

/-- Helper: deleting an id from the vector index makes it unfindable. -/
theorem vectorHas_delete (v : VectorIndex) (id : String) :
    vectorHas (vectorDelete v id) id = false := by
  unfold vectorHas vectorDelete
  rw [List.any_eq_false]
  intro r hr
  have h := List.of_mem_filter hr
  simp at h ⊢
  exact h

/-- C4 counterexample: when the durable-store write fails during a
new-entry `save` and the best-effort rollback delete of the vector record
also fails (swallowed), the original storage error is re-raised but the
entry id stays findable in the vector index with no storage record —
refuting the claim's unconditional final clause. -/
theorem claim4_counterexample :
    (cacheSave (fun s => s) (fun _ => []) {} [] [] "t" [] "o" true 0 "u" true
        true "disk full").error = some "disk full" ∧
    storageGet (cacheSave (fun s => s) (fun _ => []) {} [] [] "t" [] "o" true 0
        "u" true true "disk full").storage
      (generate_cache_id (fun s => s) "t" (serialize_args [])) = none ∧
    vectorHas (cacheSave (fun s => s) (fun _ => []) {} [] [] "t" [] "o" true 0
        "u" true true "disk full").vindex
      (generate_cache_id (fun s => s) "t" (serialize_args [])) = true := by
  refine ⟨?_, ?_, ?_⟩ <;>
    simp [cacheSave, storageGet, storageExists, vectorHas, vectorAdd,
      List.find?]

/-- C4 (amended): if the durable-store write raises during `save` of a new
entry, the save re-raises the original storage error (a failure of the
rollback delete is swallowed and does not replace it), the storage state
is unchanged and no entry is returned; provided the best-effort rollback
delete succeeds, the entry id is not findable in the vector index
afterwards.  When the delete also fails, the orphaned vector record may
remain. -/
theorem claim4_theorem (sha : String → String) (embed : String → List ℝ)
    (cfg : CacheConfig) (st : Storage) (v : VectorIndex)
    (tool : String) (args : List (String × String)) (output : String)
    (success : Bool) (now : ℝ) (uuid : String) (deleteFails : Bool)
    (errMsg : String)
    (hnew : storageGet st (generate_cache_id sha tool (serialize_args args)) =
      none) :
    (cacheSave sha embed cfg st v tool args output success now uuid true
        deleteFails errMsg).error = some errMsg ∧
    (cacheSave sha embed cfg st v tool args output success now uuid true
        deleteFails errMsg).storage = st ∧
    (cacheSave sha embed cfg st v tool args output success now uuid true
        deleteFails errMsg).entry = none ∧
    (deleteFails = false →
      vectorHas (cacheSave sha embed cfg st v tool args output success now
          uuid true deleteFails errMsg).vindex
        (generate_cache_id sha tool (serialize_args args)) = false) := by
  refine ⟨?_, ?_, ?_, ?_⟩
  · simp only [cacheSave, hnew, if_true]
  · simp only [cacheSave, hnew, if_true]
  · simp only [cacheSave, hnew, if_true]
  · intro hdf
    subst hdf
    simp only [cacheSave, hnew, if_true, Bool.false_eq_true, if_false]
    exact vectorHas_delete _ _

/-- Witness for the C4 theorem: a failing durable write on the empty state
with a succeeding rollback delete. -/
theorem claim4_witness :
    (cacheSave (fun s => s) (fun _ => []) {} [] [] "t" [] "o" true 0 "u" true
        false "err").error = some "err" ∧
    (cacheSave (fun s => s) (fun _ => []) {} [] [] "t" [] "o" true 0 "u" true
        false "err").storage = [] ∧
    (cacheSave (fun s => s) (fun _ => []) {} [] [] "t" [] "o" true 0 "u" true
        false "err").entry = none ∧
    (false = false →
      vectorHas (cacheSave (fun s => s) (fun _ => []) {} [] [] "t" [] "o" true
          0 "u" true false "err").vindex
        (generate_cache_id (fun s => s) "t" (serialize_args [])) = false) :=
  claim4_theorem (fun s => s) (fun _ => []) {} [] [] "t" [] "o" true 0 "u"
    false "err" rfl

/-- Helper: presence is membership among the stored keys. -/
theorem storageExists_eq_mem_keys (st : Storage) (k : String) :
    storageExists st k = true ↔ k ∈ storageKeys st := by
  unfold storageExists storageKeys
  rw [List.any_eq_true]
  simp only [List.mem_map, beq_iff_eq]

/-- Helper: `storageSet` keeps the key sequence when the key is present
and appends the key otherwise. -/
theorem storageKeys_set (st : Storage) (k : String) (e : CacheEntry) (sc : ℝ) :
    storageKeys (storageSet st k e sc) =
      if storageExists st k then storageKeys st else storageKeys st ++ [k] := by
  unfold storageSet storageKeys
  by_cases hex : storageExists st k
  · rw [if_pos hex, if_pos hex, List.map_map]
    apply List.map_congr_left
    intro i _
    by_cases hi : i.key = k
    · simp [hi]
    · simp [hi]
  · rw [if_neg hex, if_neg hex, List.map_append]
    rfl

/-- Helper: the size change of `storageSet`. -/
theorem storageSize_set (st : Storage) (k : String) (e : CacheEntry) (sc : ℝ) :
    storageSize (storageSet st k e sc) =
      if storageExists st k then storageSize st else storageSize st + 1 := by
  unfold storageSet storageSize
  by_cases hex : storageExists st k
  · rw [if_pos hex, if_pos hex, List.length_map]
  · rw [if_neg hex, if_neg hex, List.length_append]
    rfl

/-- Helper: no eviction happens at or below capacity. -/
theorem maybeEvict_of_le (cfg : CacheConfig) (st : Storage) (v : VectorIndex)
    (h : storageSize st ≤ cfg.max_cache_size) :
    maybeEvict cfg st v = (st, v) := by
  unfold maybeEvict
  rw [if_pos h]

/-- Helper: a key just written by `storageSet` exists. -/
theorem storageExists_set_self (st : Storage) (k : String) (e : CacheEntry)
    (sc : ℝ) : storageExists (storageSet st k e sc) k = true := by
  rw [storageExists_iff_isSome, storageGet_set, if_pos rfl]
  rfl

/-- C3: saving the same `(tool_name, input_args)` twice with different
outputs leaves exactly one stored entry under the deterministic id; after
the second save that entry's `output` and `success` come from the second
call while both reference counters keep the values they had before either
save (0 for a fresh entry).  The capacity hypothesis keeps the first save
below the eviction trigger. -/
theorem claim3_theorem (sha : String → String) (embed : String → List ℝ)
    (cfg : CacheConfig) (st : Storage) (v : VectorIndex)
    (tool : String) (args : List (String × String))
    (o1 o2 : String) (s1 s2 : Bool) (now1 now2 : ℝ) (u1 u2 : String)
    (hwf : (storageKeys st).Nodup)
    (hsize : storageSize st < cfg.max_cache_size) :
    ∀ r1 r2,
      r1 = cacheSave sha embed cfg st v tool args o1 s1 now1 u1 false false "" →
      r2 = cacheSave sha embed cfg r1.storage r1.vindex tool args o2 s2 now2 u2
        false false "" →
      (storageKeys r2.storage).count
        (generate_cache_id sha tool (serialize_args args)) = 1 ∧
      (storageGet r2.storage
          (generate_cache_id sha tool (serialize_args args))).map
          (fun e => ((e.output, e.success),
            (e.reuse_count, e.provide_context_count))) =
        some ((o2, s2),
          (countersOf st
            (generate_cache_id sha tool (serialize_args args))).getD (0, 0)) := by
  intro r1 r2 hr1 hr2
  subst hr2
  subst hr1
  cases hget : storageGet st (generate_cache_id sha tool (serialize_args args)) with
  | some e0 =>
    have hex : storageExists st
        (generate_cache_id sha tool (serialize_args args)) = true := by
      rw [storageExists_iff_isSome, hget]
      rfl
    have houter : storageGet
        (storageSet st (generate_cache_id sha tool (serialize_args args))
          { e0 with output := o1, success := s1, last_accessed_at := now1 }
          (computeEntryScore cfg
            { e0 with output := o1, success := s1, last_accessed_at := now1 }
            1 now1))
        (generate_cache_id sha tool (serialize_args args)) =
        some { e0 with output := o1, success := s1, last_accessed_at := now1 } := by
      rw [storageGet_set, if_pos rfl]
    simp only [cacheSave, hget, Bool.false_eq_true, if_false, houter]
    constructor
    · simp only [storageKeys_set, storageExists_set_self, hex, if_true]
      exact List.count_eq_one_of_mem hwf
        ((storageExists_eq_mem_keys st _).mp hex)
    · rw [storageGet_set, if_pos rfl]
      unfold countersOf
      rw [hget]
      rfl
  | none =>
    have hex : storageExists st
        (generate_cache_id sha tool (serialize_args args)) = false := by
      by_cases hx : storageExists st
          (generate_cache_id sha tool (serialize_args args))
      · rw [storageExists_iff_isSome, hget] at hx
        simp at hx
      · simpa using hx
    have hnoev : ∀ (e : CacheEntry) (sc : ℝ) (v1 : VectorIndex),
        maybeEvict cfg
          (storageSet st (generate_cache_id sha tool (serialize_args args)) e sc)
          v1 =
        (storageSet st (generate_cache_id sha tool (serialize_args args)) e sc,
          v1) := by
      intro e sc v1
      apply maybeEvict_of_le
      rw [storageSize_set, hex]
      simp only [Bool.false_eq_true, if_false]
      omega
    have houter : ∀ (e : CacheEntry) (sc : ℝ),
        storageGet
          (storageSet st (generate_cache_id sha tool (serialize_args args)) e sc)
          (generate_cache_id sha tool (serialize_args args)) = some e := by
      intro e sc
      rw [storageGet_set, if_pos rfl]
    simp only [cacheSave, hget, Bool.false_eq_true, if_false, hnoev, houter]
    constructor
    · simp only [storageKeys_set, storageExists_set_self, if_true,
        storageKeys_set, hex, Bool.false_eq_true, if_false]
      rw [List.count_append]
      have hnotmem : (generate_cache_id sha tool (serialize_args args)) ∉
          storageKeys st := by
        intro hmem
        rw [← storageExists_eq_mem_keys] at hmem
        rw [hex] at hmem
        exact absurd hmem (by simp)
      rw [List.count_eq_zero.mpr hnotmem]
      simp
    · rw [storageGet_set, if_pos rfl]
      unfold countersOf
      rw [hget]
      rfl

/-- Witness for the C3 theorem: two saves of `("t", [])` with outputs
"a" then "b" into the empty cache leave one entry with output "b" and
counters (0, 0). -/
theorem claim3_witness :
    (storageKeys (cacheSave (fun s => s) (fun _ => []) {}
        (cacheSave (fun s => s) (fun _ => []) {} [] [] "t" [] "a" true 0 "u1"
          false false "").storage
        (cacheSave (fun s => s) (fun _ => []) {} [] [] "t" [] "a" true 0 "u1"
          false false "").vindex
        "t" [] "b" false 1 "u2" false false "").storage).count
      (generate_cache_id (fun s => s) "t" (serialize_args [])) = 1 ∧
    (storageGet (cacheSave (fun s => s) (fun _ => []) {}
        (cacheSave (fun s => s) (fun _ => []) {} [] [] "t" [] "a" true 0 "u1"
          false false "").storage
        (cacheSave (fun s => s) (fun _ => []) {} [] [] "t" [] "a" true 0 "u1"
          false false "").vindex
        "t" [] "b" false 1 "u2" false false "").storage
        (generate_cache_id (fun s => s) "t" (serialize_args []))).map
        (fun e => ((e.output, e.success),
          (e.reuse_count, e.provide_context_count))) =
      some ((("b" : String), false),
        (countersOf [] (generate_cache_id (fun s => s) "t" (serialize_args []))).getD
          (0, 0)) :=
  claim3_theorem (fun s => s) (fun _ => []) {} [] [] "t" [] "a" "b" true false
    0 1 "u1" "u2" (by simp [storageKeys]) (by norm_num [storageSize]) _ _ rfl rfl

/-- Helper: the complementary key counts add to the store size. -/
theorem countP_not_key (st : Storage) (k : String) :
    st.countP (fun i => !(i.key == k)) + st.countP (fun i => i.key == k) =
      st.length := by
  induction st with
  | nil => rfl
  | cons x xs ih =>
    rw [List.countP_cons, List.countP_cons]
    cases h : (x.key == k) <;> simp [h] <;> omega

/-- Helper: counting items by key equals counting the key sequence. -/
theorem countP_key_eq_count (st : Storage) (k : String) :
    st.countP (fun i => i.key == k) = (storageKeys st).count k := by
  unfold storageKeys
  induction st with
  | nil => rfl
  | cons x xs ih =>
    rw [List.countP_cons, List.map_cons, List.count_cons, ih]

/-- Helper: deleting an existing key from a duplicate-free store removes
exactly one item. -/
theorem storageDelete_length (st : Storage) (k : String)
    (hwf : (storageKeys st).Nodup) (hex : storageExists st k = true) :
    ((storageDelete st k).2).length = st.length - 1 := by
  unfold storageDelete
  try simp only []
  rw [← List.countP_eq_length_filter]
  have h3 : st.countP (fun i => i.key == k) = 1 := by
    rw [countP_key_eq_count]
    exact List.count_eq_one_of_mem hwf ((storageExists_eq_mem_keys st k).mp hex)
  have h4 := countP_not_key st k
  omega

/-- Helper: the key sequence after a delete. -/
theorem storageKeys_delete (st : Storage) (k : String) :
    storageKeys (storageDelete st k).2 =
      (storageKeys st).filter (fun x => !(x == k)) := by
  unfold storageDelete storageKeys
  try simp only []
  rw [List.map_filter]
  rfl

/-- Helper: evicting one present key shrinks the store by one, keeps the
keys duplicate-free, and keeps every other key present. -/
theorem evict_step (sv : Storage × VectorIndex) (k : String)
    (hwf : (storageKeys sv.1).Nodup) (hk : k ∈ storageKeys sv.1) :
    (evictEntry sv k).1.length = sv.1.length - 1 ∧
    (storageKeys (evictEntry sv k).1).Nodup ∧
    (∀ x, x ≠ k → x ∈ storageKeys sv.1 → x ∈ storageKeys (evictEntry sv k).1) := by
  unfold evictEntry
  have hex : storageExists sv.1 k = true := (storageExists_eq_mem_keys _ _).mpr hk
  rw [if_pos hex]
  try simp only []
  refine ⟨storageDelete_length sv.1 k hwf hex, ?_, ?_⟩
  · rw [storageKeys_delete]
    exact hwf.filter _
  · intro x hx hmem
    rw [storageKeys_delete, List.mem_filter]
    refine ⟨hmem, by simp [hx]⟩

/-- Helper: folding the evictor over distinct present keys removes exactly
that many items. -/
theorem foldl_evict_length (sel : List String) :
    ∀ (sv : Storage × VectorIndex),
      sel.Nodup → (∀ k ∈ sel, k ∈ storageKeys sv.1) →
      (storageKeys sv.1).Nodup →
      (sel.foldl evictEntry sv).1.length = sv.1.length - sel.length := by
  induction sel with
  | nil =>
    intro sv _ _ _
    simp
  | cons k rest ih =>
    intro sv hnd hmem hwf
    rw [List.foldl_cons]
    obtain ⟨hknotin, hndr⟩ := List.nodup_cons.mp hnd
    have hk : k ∈ storageKeys sv.1 := hmem k (List.mem_cons_self _ _)
    obtain ⟨hlen, hwf1, hpres⟩ := evict_step sv k hwf hk
    have hmemrest : ∀ x ∈ rest, x ∈ storageKeys (evictEntry sv k).1 := by
      intro x hx
      exact hpres x (fun hEq => hknotin (hEq ▸ hx))
        (hmem x (List.mem_cons_of_mem _ hx))
    rw [ih (evictEntry sv k) hndr hmemrest hwf1, hlen]
    simp only [List.length_cons]
    omega

/-- Helper: each eviction selector returns `min n size` pairwise distinct
keys of the store. -/
theorem select_keys_spec (st : Storage) (n : ℕ)
    (le : StoredItem → StoredItem → Bool) :
    (((st.mergeSort le).map (fun i => i.key)).take n).length =
      min n (storageSize st) ∧
    (∀ k ∈ ((st.mergeSort le).map (fun i => i.key)).take n,
      k ∈ storageKeys st) ∧
    ((storageKeys st).Nodup →
      (((st.mergeSort le).map (fun i => i.key)).take n).Nodup) := by
  have hperm : ((st.mergeSort le).map (fun i => i.key)).Perm (storageKeys st) :=
    (List.mergeSort_perm st le).map _
  refine ⟨?_, ?_, ?_⟩
  · rw [List.length_take, List.length_map, List.length_mergeSort]
    rfl
  · intro k hk
    exact hperm.mem_iff.mp (List.take_subset n _ hk)
  · intro h
    exact (List.take_sublist n _).nodup (hperm.nodup_iff.mpr h)

/-- Helper: the selector dispatch inherits the generic selector facts for
every policy. -/
theorem selectForEviction_spec (cfg : CacheConfig) (st : Storage) (n : ℕ) :
    (selectForEviction cfg st n).length = min n (storageSize st) ∧
    (∀ k ∈ selectForEviction cfg st n, k ∈ storageKeys st) ∧
    ((storageKeys st).Nodup → (selectForEviction cfg st n).Nodup) := by
  unfold selectForEviction
  cases cfg.eviction_policy
  · exact select_keys_spec st n _
  · exact select_keys_spec st n _
  · exact select_keys_spec st n _
  · exact select_keys_spec st n _

/-- Helper: eviction caps a duplicate-free store at the configured size. -/
theorem maybeEvict_size (cfg : CacheConfig) (st : Storage) (v : VectorIndex)
    (hwf : (storageKeys st).Nodup) :
    storageSize (maybeEvict cfg st v).1 =
      min (storageSize st) cfg.max_cache_size := by
  unfold maybeEvict
  by_cases hle : storageSize st ≤ cfg.max_cache_size
  · rw [if_pos hle]
    exact (min_eq_left hle).symm
  · rw [if_neg hle]
    try simp only []
    obtain ⟨hlen, hmem, hnd⟩ :=
      selectForEviction_spec cfg st (storageSize st - cfg.max_cache_size)
    have hfold := foldl_evict_length
      (selectForEviction cfg st (storageSize st - cfg.max_cache_size)) (st, v)
      (hnd hwf) hmem hwf
    try simp only [] at hfold
    unfold storageSize at hlen hfold ⊢
    omega

/-- C5: for every eviction policy, a successful `save` into a state within
capacity leaves the store within capacity; on the new-entry path the final
size is exactly `min (size + 1) max_cache_size` (eviction runs
synchronously at the end of the save and trims back to the bound), and on
the update path the size is unchanged (that path returns before the
eviction check, and cannot grow the store). -/
theorem claim5_theorem (sha : String → String) (embed : String → List ℝ)
    (cfg : CacheConfig) (st : Storage) (v : VectorIndex)
    (tool : String) (args : List (String × String)) (o : String) (s : Bool)
    (now : ℝ) (uuid : String)
    (hwf : (storageKeys st).Nodup)
    (hmax : 0 < cfg.max_cache_size)
    (hsize : storageSize st ≤ cfg.max_cache_size) :
    storageSize (cacheSave sha embed cfg st v tool args o s now uuid false
        false "").storage ≤ cfg.max_cache_size ∧
    (storageGet st (generate_cache_id sha tool (serialize_args args)) = none →
      storageSize (cacheSave sha embed cfg st v tool args o s now uuid false
          false "").storage = min (storageSize st + 1) cfg.max_cache_size) ∧
    (∀ e, storageGet st (generate_cache_id sha tool (serialize_args args)) =
        some e →
      storageSize (cacheSave sha embed cfg st v tool args o s now uuid false
          false "").storage = storageSize st) := by
  cases hget : storageGet st (generate_cache_id sha tool (serialize_args args)) with
  | some e0 =>
    have hex : storageExists st
        (generate_cache_id sha tool (serialize_args args)) = true := by
      rw [storageExists_iff_isSome, hget]
      rfl
    simp only [cacheSave, hget, Bool.false_eq_true, if_false]
    have hsz : ∀ (e : CacheEntry) (sc : ℝ),
        storageSize (storageSet st
          (generate_cache_id sha tool (serialize_args args)) e sc) =
        storageSize st := by
      intro e sc
      rw [storageSize_set, hex, if_pos rfl]
    refine ⟨?_, ?_, ?_⟩
    · rw [hsz]
      exact hsize
    · intro h
      exact absurd h (by simp)
    · intro e _
      rw [hsz]
  | none =>
    have hex : storageExists st
        (generate_cache_id sha tool (serialize_args args)) = false := by
      by_cases hx : storageExists st
          (generate_cache_id sha tool (serialize_args args))
      · rw [storageExists_iff_isSome, hget] at hx
        simp at hx
      · simpa using hx
    have hnotmem : (generate_cache_id sha tool (serialize_args args)) ∉
        storageKeys st := by
      intro hmem
      rw [← storageExists_eq_mem_keys, hex] at hmem
      exact absurd hmem (by simp)
    simp only [cacheSave, hget, Bool.false_eq_true, if_false]
    have hwf2 : ∀ (e : CacheEntry) (sc : ℝ),
        (storageKeys (storageSet st
          (generate_cache_id sha tool (serialize_args args)) e sc)).Nodup := by
      intro e sc
      rw [storageKeys_set, hex]
      simp only [Bool.false_eq_true, if_false]
      simp [List.nodup_append, hwf, hnotmem]
    have hsz : ∀ (e : CacheEntry) (sc : ℝ),
        storageSize (storageSet st
          (generate_cache_id sha tool (serialize_args args)) e sc) =
        storageSize st + 1 := by
      intro e sc
      rw [storageSize_set, hex]
      simp
    refine ⟨?_, ?_, ?_⟩
    · rw [maybeEvict_size cfg _ _ (hwf2 _ _), hsz]
      omega
    · intro _
      rw [maybeEvict_size cfg _ _ (hwf2 _ _), hsz]
    · intro e he
      exact absurd he (by simp)

/-- Witness for the C5 theorem: a save into the empty cache with the
default configuration ends with one stored entry, within the bound. -/
theorem claim5_witness :
    storageSize (cacheSave (fun s => s) (fun _ => []) {} [] [] "t" [] "o" true
        0 "u" false false "").storage ≤
      ({} : CacheConfig).max_cache_size ∧
    (storageGet [] (generate_cache_id (fun s => s) "t" (serialize_args [])) =
        none →
      storageSize (cacheSave (fun s => s) (fun _ => []) {} [] [] "t" [] "o"
          true 0 "u" false false "").storage =
        min (storageSize [] + 1) ({} : CacheConfig).max_cache_size) ∧
    (∀ e, storageGet []
        (generate_cache_id (fun s => s) "t" (serialize_args [])) = some e →
      storageSize (cacheSave (fun s => s) (fun _ => []) {} [] [] "t" [] "o"
          true 0 "u" false false "").storage = storageSize []) :=
  claim5_theorem (fun s => s) (fun _ => []) {} [] [] "t" [] "o" true 0 "u"
    (by simp [storageKeys]) (by norm_num) (by norm_num [storageSize])

/-- Helper: a keyed entry update preserves counter nonnegativity when the
transformation does. -/
theorem countersNonneg_map_if (st : Storage) (id : String)
    (f g : StoredItem → StoredItem)
    (hf : ∀ i, f i = if i.key == id then g i else i)
    (hg : ∀ i, 0 ≤ i.entry.reuse_count → 0 ≤ i.entry.provide_context_count →
      0 ≤ (g i).entry.reuse_count ∧ 0 ≤ (g i).entry.provide_context_count)
    (h : CountersNonneg st) : CountersNonneg (st.map f) := by
  intro j hj
  obtain ⟨i, hi, rfl⟩ := List.mem_map.mp hj
  rw [hf i]
  by_cases hk : i.key = id
  · rw [if_pos (by simp [hk])]
    exact hg i (h i hi).1 (h i hi).2
  · rw [if_neg (by simp [hk])]
    exact h i hi

/-- Helper: a successful read names the entry of some stored item. -/
theorem storageGet_mem (st : Storage) (k : String) (e : CacheEntry)
    (h : storageGet st k = some e) : ∃ i ∈ st, i.entry = e := by
  unfold storageGet at h
  cases hfind : st.find? (fun i => i.key == k) with
  | none =>
    rw [hfind] at h
    simp at h
  | some i =>
    rw [hfind] at h
    simp at h
    exact ⟨i, List.mem_of_find?_eq_some hfind, h⟩

/-- Helper: the guarded decrement never drives a nonnegative counter below
zero, and decrements exactly one counter as specified. -/
theorem decrementEntry_spec (e : CacheEntry) (h1 : 0 ≤ e.reuse_count)
    (h2 : 0 ≤ e.provide_context_count) :
    (0 < e.reuse_count →
      (decrementEntry e).reuse_count = e.reuse_count - 1 ∧
      (decrementEntry e).provide_context_count = e.provide_context_count) ∧
    (¬ 0 < e.reuse_count → 0 < e.provide_context_count →
      (decrementEntry e).reuse_count = e.reuse_count ∧
      (decrementEntry e).provide_context_count =
        e.provide_context_count - 1) ∧
    (¬ 0 < e.reuse_count → ¬ 0 < e.provide_context_count →
      decrementEntry e = e) ∧
    0 ≤ (decrementEntry e).reuse_count ∧
    0 ≤ (decrementEntry e).provide_context_count := by
  unfold decrementEntry
  by_cases hr : 0 < e.reuse_count
  · rw [if_pos hr]
    refine ⟨fun _ => ⟨rfl, rfl⟩, fun hnr => absurd hr hnr, fun hnr => absurd hr hnr,
      ?_, h2⟩
    show 0 ≤ e.reuse_count - 1
    omega
  · rw [if_neg hr]
    by_cases hc : 0 < e.provide_context_count
    · rw [if_pos hc]
      refine ⟨fun hr2 => absurd hr2 hr, fun _ _ => ⟨rfl, rfl⟩,
        fun _ hnc => absurd hc hnc, h1, ?_⟩
      show 0 ≤ e.provide_context_count - 1
      omega
    · rw [if_neg hc]
      exact ⟨fun hr2 => absurd hr2 hr, fun _ hc2 => absurd hc2 hc,
        fun _ _ => rfl, h1, h2⟩

/-- Helper: the storage-level reuse increment preserves nonnegativity. -/
theorem countersNonneg_incReuse (st : Storage) (id : String) (now : ℝ)
    (h : CountersNonneg st) :
    CountersNonneg (storageIncrementReuse st id now).2 := by
  unfold storageIncrementReuse
  by_cases hex : storageExists st id
  · rw [if_pos hex]
    try simp only []
    refine countersNonneg_map_if st id _
      (fun i => StoredItem.mk i.key
        { i.entry with
          reuse_count := i.entry.reuse_count + 1,
          last_accessed_at := now } i.score) (fun i => rfl) ?_ h
    intro i h1 h2
    refine ⟨?_, h2⟩
    show 0 ≤ i.entry.reuse_count + 1
    omega
  · rw [if_neg hex]
    exact h

/-- Helper: the storage-level context increment preserves nonnegativity. -/
theorem countersNonneg_incContext (st : Storage) (id : String) (now : ℝ)
    (h : CountersNonneg st) :
    CountersNonneg (storageIncrementContext st id now).2 := by
  unfold storageIncrementContext
  by_cases hex : storageExists st id
  · rw [if_pos hex]
    try simp only []
    refine countersNonneg_map_if st id _
      (fun i => StoredItem.mk i.key
        { i.entry with
          provide_context_count := i.entry.provide_context_count + 1,
          last_accessed_at := now } i.score) (fun i => rfl) ?_ h
    intro i h1 h2
    refine ⟨h1, ?_⟩
    show 0 ≤ i.entry.provide_context_count + 1
    omega
  · rw [if_neg hex]
    exact h

/-- Helper: the access-time refresh preserves nonnegativity. -/
theorem countersNonneg_updateAccessTime (st : Storage) (id : String) (now : ℝ)
    (h : CountersNonneg st) :
    CountersNonneg (storageUpdateAccessTime st id now).2 := by
  unfold storageUpdateAccessTime
  by_cases hex : storageExists st id
  · rw [if_pos hex]
    try simp only []
    refine countersNonneg_map_if st id _
      (fun i => StoredItem.mk i.key
        { i.entry with last_accessed_at := now } i.score) (fun i => rfl) ?_ h
    intro i h1 h2
    exact ⟨h1, h2⟩
  · rw [if_neg hex]
    exact h

/-- Helper: the score rewrite preserves nonnegativity. -/
theorem countersNonneg_updateScore (st : Storage) (id : String) (sc : ℝ)
    (h : CountersNonneg st) :
    CountersNonneg (storageUpdateScore st id sc).2 := by
  unfold storageUpdateScore
  by_cases hex : storageExists st id
  · rw [if_pos hex]
    try simp only []
    refine countersNonneg_map_if st id _
      (fun i => StoredItem.mk i.key i.entry sc) (fun i => rfl) ?_ h
    intro i h1 h2
    exact ⟨h1, h2⟩
  · rw [if_neg hex]
    exact h

/-- Helper: the guarded decrement preserves nonnegativity. -/
theorem countersNonneg_decRef (st : Storage) (id : String)
    (h : CountersNonneg st) :
    CountersNonneg (storageDecrementReference st id).2 := by
  unfold storageDecrementReference
  by_cases hex : storageExists st id
  · rw [if_pos hex]
    try simp only []
    refine countersNonneg_map_if st id _
      (fun i => StoredItem.mk i.key (decrementEntry i.entry) i.score)
      (fun i => rfl) ?_ h
    intro i h1 h2
    exact (decrementEntry_spec i.entry h1 h2).2.2.2
  · rw [if_neg hex]
    exact h

/-- Helper: `storageSet` preserves nonnegativity for a nonnegative new
entry. -/
theorem countersNonneg_set (st : Storage) (k : String) (e : CacheEntry)
    (sc : ℝ) (he1 : 0 ≤ e.reuse_count) (he2 : 0 ≤ e.provide_context_count)
    (h : CountersNonneg st) : CountersNonneg (storageSet st k e sc) := by
  unfold storageSet
  by_cases hex : storageExists st k
  · rw [if_pos hex]
    refine countersNonneg_map_if st k _ (fun _ => StoredItem.mk k e sc)
      (fun i => rfl) ?_ h
    intro i _ _
    exact ⟨he1, he2⟩
  · rw [if_neg hex]
    intro i hi
    rcases List.mem_append.mp hi with hl | hr
    · exact h i hl
    · rw [List.mem_singleton] at hr
      subst hr
      exact ⟨he1, he2⟩

/-- Helper: evicting one id preserves nonnegativity. -/
theorem countersNonneg_evictEntry (sv : Storage × VectorIndex) (k : String)
    (h : CountersNonneg sv.1) : CountersNonneg (evictEntry sv k).1 := by
  unfold evictEntry
  by_cases hex : storageExists sv.1 k
  · rw [if_pos hex]
    try simp only [storageDelete]
    intro i hi
    exact h i (List.mem_of_mem_filter hi)
  · rw [if_neg hex]
    exact h

/-- Helper: eviction of any key list preserves nonnegativity. -/
theorem countersNonneg_foldl_evict (sel : List String) :
    ∀ (sv : Storage × VectorIndex), CountersNonneg sv.1 →
      CountersNonneg (sel.foldl evictEntry sv).1 := by
  induction sel with
  | nil =>
    intro sv h
    exact h
  | cons k rest ih =>
    intro sv h
    rw [List.foldl_cons]
    exact ih _ (countersNonneg_evictEntry sv k h)

/-- Helper: the cache-level reuse increment preserves nonnegativity. -/
theorem countersNonneg_cacheIncReuse (cfg : CacheConfig) (st : Storage)
    (id : String) (now : ℝ) (h : CountersNonneg st) :
    CountersNonneg (cacheIncrementReuse cfg st id now).2 := by
  simp only [cacheIncrementReuse]
  split
  · split
    · try simp only []
      exact countersNonneg_updateScore _ _ _
        (countersNonneg_incReuse st id now h)
    · try simp only []
      exact countersNonneg_incReuse st id now h
  · try simp only []
    exact countersNonneg_incReuse st id now h

/-- Helper: the cache-level context increment preserves nonnegativity. -/
theorem countersNonneg_cacheIncContext (cfg : CacheConfig) (st : Storage)
    (id : String) (now : ℝ) (h : CountersNonneg st) :
    CountersNonneg (cacheIncrementContext cfg st id now).2 := by
  simp only [cacheIncrementContext]
  split
  · split
    · try simp only []
      exact countersNonneg_updateScore _ _ _
        (countersNonneg_incContext st id now h)
    · try simp only []
      exact countersNonneg_incContext st id now h
  · try simp only []
    exact countersNonneg_incContext st id now h

/-- Helper: the best-match touch preserves nonnegativity. -/
theorem countersNonneg_touch (cfg : CacheConfig) (st : Storage) (id : String)
    (now : ℝ) (h : CountersNonneg st) :
    CountersNonneg (touchEntry cfg st id now) := by
  simp only [touchEntry]
  split
  · split
    · try simp only []
      exact countersNonneg_updateAccessTime st id now h
    · try simp only []
      exact countersNonneg_updateScore _ _ _
        (countersNonneg_updateAccessTime st id now h)
  · exact h

/-- Helper: folding the context increment over any hints preserves
nonnegativity. -/
theorem countersNonneg_foldl_incContext (cfg : CacheConfig) (now : ℝ)
    (hints : List CacheHit) :
    ∀ (st : Storage), CountersNonneg st →
      CountersNonneg (hints.foldl
        (fun s h => (cacheIncrementContext cfg s h.entry.id now).2) st) := by
  induction hints with
  | nil =>
    intro st h
    exact h
  | cons h0 rest ih =>
    intro st h
    rw [List.foldl_cons]
    exact ih _ (countersNonneg_cacheIncContext cfg st h0.entry.id now h)

/-- Helper: eviction at the end of `save` preserves nonnegativity. -/
theorem countersNonneg_maybeEvict (cfg : CacheConfig) (st : Storage)
    (v : VectorIndex) (h : CountersNonneg st) :
    CountersNonneg (maybeEvict cfg st v).1 := by
  unfold maybeEvict
  split
  · exact h
  · try simp only []
    exact countersNonneg_foldl_evict _ _ h

/-- Helper: `save` preserves nonnegativity (the fresh entry starts at
zero, the update path keeps the stored counters). -/
theorem countersNonneg_save (sha : String → String) (embed : String → List ℝ)
    (cfg : CacheConfig) (st : Storage) (v : VectorIndex) (tool : String)
    (args : List (String × String)) (o : String) (s : Bool) (now : ℝ)
    (uuid : String) (sf df : Bool) (err : String) (h : CountersNonneg st) :
    CountersNonneg
      (cacheSave sha embed cfg st v tool args o s now uuid sf df err).storage := by
  simp only [cacheSave]
  split
  · rename_i e0 hget
    obtain ⟨i, hi, hie⟩ := storageGet_mem st _ e0 hget
    have h0 := h i hi
    rw [hie] at h0
    split
    · exact h
    · try simp only []
      refine countersNonneg_set st _ _ _ ?_ ?_ h
      · exact h0.1
      · exact h0.2
  · split
    · try simp only []
      exact h
    · try simp only []
      refine countersNonneg_maybeEvict cfg _ _ ?_
      refine countersNonneg_set st _ _ _ ?_ ?_ h
      · exact le_refl 0
      · exact le_refl 0

/-- Helper: a delete removes exactly the target key from the read view. -/
theorem storageGet_delete (st : Storage) (k k2 : String) :
    storageGet (storageDelete st k).2 k2 =
      if k2 = k then none else storageGet st k2 := by
  unfold storageDelete storageGet
  try simp only []
  induction st with
  | nil => by_cases hk : k2 = k <;> simp [hk]
  | cons x xs ih =>
    rw [List.filter_cons]
    by_cases hx : x.key = k
    · rw [if_neg (by simp [hx])]
      rw [ih]
      by_cases hk : k2 = k
      · rw [if_pos hk, if_pos hk]
      · rw [if_neg hk, if_neg hk,
          List.find?_cons_of_neg _
            (by simp only [hx, beq_iff_eq]; exact fun hE => hk hE.symm)]
    · rw [if_pos (by simp [hx])]
      by_cases hx2 : x.key = k2
      · have hk : ¬ k2 = k := fun hE => hx (hx2.trans hE)
        rw [if_neg hk,
          List.find?_cons_of_pos _ (by simp [hx2]),
          List.find?_cons_of_pos _ (by simp [hx2])]
      · rw [List.find?_cons_of_neg _ (by simp [hx2]), ih]
        by_cases hk : k2 = k
        · rw [if_pos hk, if_pos hk]
        · rw [if_neg hk, if_neg hk,
            List.find?_cons_of_neg _ (by simp [hx2])]

/-- Helper: one eviction step either keeps a key's read or erases it. -/
theorem storageGet_evictEntry (sv : Storage × VectorIndex) (k k2 : String) :
    storageGet (evictEntry sv k).1 k2 = storageGet sv.1 k2 ∨
    storageGet (evictEntry sv k).1 k2 = none := by
  unfold evictEntry
  split
  · try simp only []
    rw [storageGet_delete]
    by_cases hk : k2 = k
    · right
      rw [if_pos hk]
    · left
      rw [if_neg hk]
  · left
    rfl

/-- Helper: an eviction pass either keeps a key's read or erases it. -/
theorem storageGet_foldl_evict (sel : List String) :
    ∀ (sv : Storage × VectorIndex) (k : String),
      storageGet (sel.foldl evictEntry sv).1 k = storageGet sv.1 k ∨
      storageGet (sel.foldl evictEntry sv).1 k = none := by
  induction sel with
  | nil =>
    intro sv k
    exact Or.inl rfl
  | cons k0 rest ih =>
    intro sv k
    rw [List.foldl_cons]
    rcases ih (evictEntry sv k0) k with h1 | h1
    · rcases storageGet_evictEntry sv k0 k with h2 | h2
      · exact Or.inl (h1.trans h2)
      · exact Or.inr (h1.trans h2)
    · exact Or.inr h1

/-- Helper: `_maybe_evict` either keeps a key's read or erases it. -/
theorem storageGet_maybeEvict (cfg : CacheConfig) (st : Storage)
    (v : VectorIndex) (k : String) :
    storageGet (maybeEvict cfg st v).1 k = storageGet st k ∨
    storageGet (maybeEvict cfg st v).1 k = none := by
  unfold maybeEvict
  split
  · exact Or.inl rfl
  · try simp only []
    exact storageGet_foldl_evict _ (st, v) k

/-- Helper: the touch never changes any counter pair. -/
theorem countersOf_touch (cfg : CacheConfig) (st : Storage) (id : String)
    (now : ℝ) (k : String) :
    countersOf (touchEntry cfg st id now) k = countersOf st k := by
  unfold countersOf
  rw [storageGet_touchEntry]
  by_cases hk : k = id
  · rw [if_pos hk]
    cases storageGet st k <;> simp
  · rw [if_neg hk]

/-- Helper: `get_best_match` never changes any counter pair. -/
theorem countersOf_getBest (cfg : CacheConfig) (st : Storage)
    (v : VectorIndex) (now : ℝ) (raw : List RawResult) (k : String) :
    countersOf (getBestMatch cfg st v now raw).2.1 k = countersOf st k := by
  simp only [getBestMatch]
  split
  · rfl
  · split
    · try simp only []
      exact countersOf_touch cfg st _ now k
    · rfl

/-- Helper: a save either keeps a counter pair, erases the entry (by
eviction), or creates the zero pair for a previously absent id. -/
theorem countersOf_save (sha : String → String) (embed : String → List ℝ)
    (cfg : CacheConfig) (st : Storage) (v : VectorIndex) (tool : String)
    (args : List (String × String)) (o : String) (s : Bool) (now : ℝ)
    (uuid : String) (sf df : Bool) (err : String) (k : String) :
    countersOf (cacheSave sha embed cfg st v tool args o s now uuid sf df
        err).storage k = countersOf st k ∨
    countersOf (cacheSave sha embed cfg st v tool args o s now uuid sf df
        err).storage k = none ∨
    (countersOf st k = none ∧
      countersOf (cacheSave sha embed cfg st v tool args o s now uuid sf df
        err).storage k = some (0, 0)) := by
  simp only [cacheSave]
  split
  · rename_i e0 hget
    split
    · exact Or.inl rfl
    · try simp only []
      by_cases hk : k = generate_cache_id sha tool (serialize_args args)
      · left
        unfold countersOf
        rw [storageGet_set, if_pos hk, hk, hget]
        rfl
      · left
        unfold countersOf
        rw [storageGet_set, if_neg hk]
  · rename_i hget
    split
    · exact Or.inl rfl
    · try simp only []
      by_cases hk : k = generate_cache_id sha tool (serialize_args args)
      · rcases storageGet_maybeEvict cfg _ _ k with hsame | hnone
        · right
          right
          constructor
          · unfold countersOf
            rw [hk, hget]
            rfl
          · unfold countersOf
            rw [hsame, storageGet_set, if_pos hk]
            rfl
        · right
          left
          unfold countersOf
          rw [hnone]
          rfl
      · rcases storageGet_maybeEvict cfg _ _ k with hsame | hnone
        · left
          unfold countersOf
          rw [hsame, storageGet_set, if_neg hk]
        · right
          left
          unfold countersOf
          rw [hnone]
          rfl

/-- Helper: the context-increment fold never decreases a surviving counter
pair. -/
theorem countersOf_foldl_incContext_le (cfg : CacheConfig) (now : ℝ)
    (hints : List CacheHit) :
    ∀ (st : Storage) (k : String) (p q : ℤ × ℤ),
      countersOf st k = some p →
      countersOf (hints.foldl
        (fun s h => (cacheIncrementContext cfg s h.entry.id now).2) st) k =
        some q →
      p.1 ≤ q.1 ∧ p.2 ≤ q.2 := by
  induction hints with
  | nil =>
    intro st k p q h1 h2
    simp only [List.foldl_nil] at h2
    rw [h1] at h2
    cases h2
    exact ⟨le_refl _, le_refl _⟩
  | cons h0 rest ih =>
    intro st k p q h1 h2
    rw [List.foldl_cons] at h2
    by_cases hk : k = h0.entry.id
    · have hc : countersOf (cacheIncrementContext cfg st h0.entry.id now).2 k =
          some (p.1, p.2 + 1) := by
        rw [countersOf_cacheIncContext, if_pos hk, h1]
        rfl
      obtain ⟨ha, hb⟩ := ih _ k (p.1, p.2 + 1) q hc h2
      refine ⟨ha, ?_⟩
      have hb2 : p.2 + 1 ≤ q.2 := hb
      omega
    · have hc : countersOf (cacheIncrementContext cfg st h0.entry.id now).2 k =
          some p := by
        rw [countersOf_cacheIncContext, if_neg hk, h1]
      exact ih _ k p q hc h2

/-- Helper: the decision call never decreases a surviving counter pair. -/
theorem countersOf_decideCall_le (cfg : CacheConfig) (st : Storage)
    (v : VectorIndex) (now : ℝ) (raw : List RawResult) (k : String)
    (p q : ℤ × ℤ) (h1 : countersOf st k = some p)
    (h2 : countersOf (interceptorDecide cfg st v now raw).2.1 k = some q) :
    p.1 ≤ q.1 ∧ p.2 ≤ q.2 := by
  simp only [interceptorDecide] at h2
  split at h2
  · rw [h1] at h2
    cases h2
    exact ⟨le_refl _, le_refl _⟩
  · split at h2
    · try simp only [] at h2
      rw [countersOf_cacheIncReuse] at h2
      split at h2
      · rw [h1] at h2
        injection h2 with h3
        subst h3
        refine ⟨?_, le_refl _⟩
        show p.1 ≤ p.1 + 1
        omega
      · rw [h1] at h2
        cases h2
        exact ⟨le_refl _, le_refl _⟩
    · split at h2
      · split at h2
        · rw [h1] at h2
          cases h2
          exact ⟨le_refl _, le_refl _⟩
        · try simp only [] at h2
          exact countersOf_foldl_incContext_le cfg now _ st k p q h1 h2
      · rw [h1] at h2
        cases h2
        exact ⟨le_refl _, le_refl _⟩

/-- Helper: `get_best_match` preserves nonnegativity. -/
theorem countersNonneg_getBest (cfg : CacheConfig) (st : Storage)
    (v : VectorIndex) (now : ℝ) (raw : List RawResult)
    (h : CountersNonneg st) :
    CountersNonneg (getBestMatch cfg st v now raw).2.1 := by
  simp only [getBestMatch]
  split
  · exact h
  · split
    · try simp only []
      exact countersNonneg_touch cfg st _ now h
    · exact h

/-- Helper: the decision call preserves nonnegativity. -/
theorem countersNonneg_decideCall (cfg : CacheConfig) (st : Storage)
    (v : VectorIndex) (now : ℝ) (raw : List RawResult)
    (h : CountersNonneg st) :
    CountersNonneg (interceptorDecide cfg st v now raw).2.1 := by
  simp only [interceptorDecide]
  split
  · exact h
  · split
    · try simp only []
      exact countersNonneg_cacheIncReuse cfg st _ now h
    · split
      · split
        · exact h
        · try simp only []
          exact countersNonneg_foldl_incContext cfg now _ st h
      · exact h

/-- Helper: every public operation preserves nonnegativity of the
counters. -/
theorem countersNonneg_applyOp (sha : String → String)
    (embed : String → List ℝ) (cfg : CacheConfig) (op : CacheOp)
    (sv : Storage × VectorIndex) (h : CountersNonneg sv.1) :
    CountersNonneg (applyOp sha embed cfg op sv).1 := by
  cases op with
  | save tool args output success now uuid sf df err =>
    exact countersNonneg_save sha embed cfg sv.1 sv.2 tool args output
      success now uuid sf df err h
  | incrementReuse id now =>
    exact countersNonneg_cacheIncReuse cfg sv.1 id now h
  | incrementContext id now =>
    exact countersNonneg_cacheIncContext cfg sv.1 id now h
  | decrementReference id =>
    exact countersNonneg_decRef sv.1 id h
  | getBest now raw =>
    exact countersNonneg_getBest cfg sv.1 sv.2 now raw h
  | decideCall now raw =>
    exact countersNonneg_decideCall cfg sv.1 sv.2 now raw h
  | clear =>
    intro i hi
    simp [applyOp] at hi

/-- C8: in every reachable cache state both reference counters of every
stored entry are nonnegative; every public operation except the explicit
`decrement_reference` leaves each surviving entry's counter pair
non-decreasing; and `decrement_reference` takes one off `reuse_count` when
it is positive, otherwise one off `provide_context_count` when that is
positive, otherwise changes nothing — never driving either counter below
zero. -/
theorem claim8_theorem (sha : String → String) (embed : String → List ℝ)
    (cfg : CacheConfig) :
    (∀ sv, Reachable sha embed cfg sv → CountersNonneg sv.1) ∧
    (∀ (op : CacheOp) (sv : Storage × VectorIndex),
      (∀ id, op ≠ CacheOp.decrementReference id) →
      ∀ (k : String) (p q : ℤ × ℤ), countersOf sv.1 k = some p →
        countersOf (applyOp sha embed cfg op sv).1 k = some q →
        p.1 ≤ q.1 ∧ p.2 ≤ q.2) ∧
    (∀ (st : Storage) (id : String) (e : CacheEntry),
      storageGet st id = some e → 0 ≤ e.reuse_count →
      0 ≤ e.provide_context_count →
      storageGet (storageDecrementReference st id).2 id =
        some (decrementEntry e) ∧
      (0 < e.reuse_count →
        (decrementEntry e).reuse_count = e.reuse_count - 1 ∧
        (decrementEntry e).provide_context_count = e.provide_context_count) ∧
      (¬ 0 < e.reuse_count → 0 < e.provide_context_count →
        (decrementEntry e).reuse_count = e.reuse_count ∧
        (decrementEntry e).provide_context_count =
          e.provide_context_count - 1) ∧
      (¬ 0 < e.reuse_count → ¬ 0 < e.provide_context_count →
        decrementEntry e = e) ∧
      0 ≤ (decrementEntry e).reuse_count ∧
      0 ≤ (decrementEntry e).provide_context_count) := by
  refine ⟨?_, ?_, ?_⟩
  · intro sv hreach
    induction hreach with
    | init =>
      intro i hi
      simp at hi
    | step s op _ ih =>
      exact countersNonneg_applyOp sha embed cfg op s ih
  · intro op sv hnd k p q h1 h2
    cases op with
    | save tool args output success now uuid sf df err =>
      simp only [applyOp] at h2
      rcases countersOf_save sha embed cfg sv.1 sv.2 tool args output success
          now uuid sf df err k with hs | hs | hs
      · rw [hs, h1] at h2
        cases h2
        exact ⟨le_refl _, le_refl _⟩
      · rw [hs] at h2
        cases h2
      · rw [hs.1] at h1
        cases h1
    | incrementReuse id now =>
      simp only [applyOp] at h2
      rw [countersOf_cacheIncReuse] at h2
      split at h2
      · rw [h1] at h2
        injection h2 with h3
        subst h3
        refine ⟨?_, le_refl _⟩
        show p.1 ≤ p.1 + 1
        omega
      · rw [h1] at h2
        cases h2
        exact ⟨le_refl _, le_refl _⟩
    | incrementContext id now =>
      simp only [applyOp] at h2
      rw [countersOf_cacheIncContext] at h2
      split at h2
      · rw [h1] at h2
        injection h2 with h3
        subst h3
        refine ⟨le_refl _, ?_⟩
        show p.2 ≤ p.2 + 1
        omega
      · rw [h1] at h2
        cases h2
        exact ⟨le_refl _, le_refl _⟩
    | decrementReference id =>
      exact absurd rfl (hnd id)
    | getBest now raw =>
      simp only [applyOp] at h2
      rw [countersOf_getBest] at h2
      rw [h1] at h2
      cases h2
      exact ⟨le_refl _, le_refl _⟩
    | decideCall now raw =>
      simp only [applyOp] at h2
      exact countersOf_decideCall_le cfg sv.1 sv.2 now raw k p q h1 h2
    | clear =>
      simp [applyOp, countersOf, storageGet] at h2
  · intro st id e hget h1 h2
    have spec := decrementEntry_spec e h1 h2
    refine ⟨?_, spec.1, spec.2.1, spec.2.2.1, spec.2.2.2.1, spec.2.2.2.2⟩
    rw [storageGet_decRef, if_pos rfl, hget]
    rfl

/-- Witness for the C8 theorem: nonnegativity at the initial state, the
reuse increment on the one-entry example state raising the pair (0, 0) to
(1, 0), and the guarded decrement applied to the example entry. -/
theorem claim8_witness :
    CountersNonneg ([] : Storage) ∧
    ((0 : ℤ) ≤ 1 ∧ (0 : ℤ) ≤ 0) ∧
    storageGet (storageDecrementReference exampleStorage "k1").2 "k1" =
      some (decrementEntry exampleEntry) :=
  ⟨(claim8_theorem (fun s => s) (fun _ => []) {}).1 ([], []) Reachable.init,
   (claim8_theorem (fun s => s) (fun _ => []) {}).2.1
     (CacheOp.incrementReuse "k1" 0) (exampleStorage, [])
     (fun id => by simp) "k1" (0, 0) (1, 0)
     (by simp [countersOf, storageGet, exampleStorage, exampleEntry,
       List.find?])
     (by
       simp only [applyOp]
       rw [countersOf_cacheIncReuse, if_pos rfl]
       simp [countersOf, storageGet, exampleStorage, exampleEntry,
         List.find?]),
   ((claim8_theorem (fun s => s) (fun _ => []) {}).2.2 exampleStorage "k1"
     exampleEntry
     (by simp [storageGet, exampleStorage, List.find?])
     (le_refl 0) (le_refl 0)).1⟩

end ContextRef
